import Mathlib

/-!
Verification development for the `led-cartography` photographer pipeline.

The definitions below are a shallow embedding of `src/photographer.js`
(the final acquisition/reduction tool).  JavaScript objects become Lean
structures with `Option` fields (`none` embeds `undefined`); the on-disk
file system is an abstract predicate `String → Bool` (does a file of that
name exist); timestamps are integers in milliseconds; asynchronous
callback chains are embedded as pure functions that return the mutated
node together with an ordered trace of the events (callback invocations,
device calls, writes) the source performs, with the outcome of each
external collaborator (camera, worker pool, file write) passed in as an
explicit parameter.
-/

namespace LedCarto

/-- Command-line options of `src/photographer.js` (lines 31-79), with their
default values.  `noisethreshold` and the other numeric thresholds are
embedded as integers (the source only ever compares them). -/
structure Opts where
  thumbscale : Nat := 3
  noisethreshold : Int := 10
  maxgap : Nat := 2
  darkinterval : Nat := 60
  denoise : Int := 600
  blacklevel : Int := 25
  striplimit : Nat := 8
deriving Repr, DecidableEq

/-- The lightmap record a led node may carry: `jLed.lightmap = {file: lightFile}`
(line 371), later extended by `generateMoments` (lines 396-401) with moments,
size and centroid. -/
structure Lightmap where
  file : String
  m00 : Option Int := none
  m10 : Option Int := none
  m01 : Option Int := none
deriving Repr, DecidableEq

/-- One dynamic JSON node of `photos.json`: a led (`jLed`), or a dark frame
(`jFrame`).  The source uses plain mutable objects; fields that a node may
lack are `Option`.  `timestamp` is embedded as milliseconds since epoch
(the source stores `new Date().toJSON()` and parses it back with
`new Date(s).getTime()`). -/
structure JNode where
  timestamp : Option Int := none
  rawFile : Option String := none
  thumbFile : Option String := none
  lightmap : Option Lightmap := none
  peakDiff : Option Int := none
  darkFrame : Option Nat := none
  pgmFile : Option String := none
deriving Repr, DecidableEq

/-- A strip record: `jDev.strips[stripIndex]`, holding the optional inferred
`length` (src/photographer.js line 417). -/
structure JStrip where
  length : Option Nat := none
deriving Repr, DecidableEq

/-- A device record `json.devices[serial] = {strips: {}, leds: {}}`
(line 463).  The dynamic objects keyed by integer index are embedded as
association lists in insertion order, matching JavaScript object key
order for the integer keys the source uses. -/
structure JDev where
  strips : List (Nat × JStrip) := []
  leds : List (Nat × JNode) := []
deriving Repr, DecidableEq

/-- Look up the first binding of `k` in an association list (JavaScript
property access `obj[k]`). -/
def alistGet {κ α : Type} [BEq κ] (l : List (κ × α)) (k : κ) : Option α :=
  (l.find? (fun p => p.1 == k)).map Prod.snd

/-- Assign `obj[k] = v`: replace the first binding of `k` in place if one
exists (JavaScript keeps the key's position), otherwise append the new
binding. -/
def alistSet {κ α : Type} [BEq κ] (l : List (κ × α)) (k : κ) (v : α) : List (κ × α) :=
  match l with
  | [] => [(k, v)]
  | (k', v') :: rest =>
    if k' == k then (k, v) :: rest else (k', v') :: alistSet rest k v

/-- `dark-<index>`: src/photographer.js lines 196-199. -/
def darkFrameName (index : Nat) : String :=
  "dark-" ++ toString index

/-! ### Background-frame freshness (src/photographer.js lines 226-245) -/

/-- `currentDarkFrameIndex(json)`: return the index of the latest dark frame
if it exists, has a timestamp, and `Date.now() - ts < opts.darkinterval*1000`;
otherwise return the next unused index.  In the source `index` is
`json.darkFrames.length - 1` and the fallthrough returns `index + 1`, which
always equals `darkFrames.length` (also for the empty list, where JavaScript
indexing at `-1` yields `undefined`). -/
def currentDarkFrameIndex (opts : Opts) (nowMs : Int) (darkFrames : List JNode) : Nat :=
  match darkFrames.getLast? with
  | some frame =>
    match frame.timestamp with
    | some ts =>
      if nowMs - ts < (opts.darkinterval : Int) * 1000 then
        darkFrames.length - 1
      else
        darkFrames.length
    | none => darkFrames.length
  | none => darkFrames.length

/-! ### Strip-length inference (src/photographer.js lines 408-453) -/

/-- Number of leds per strip on one Fadecandy controller.  Modelled from the
spec: the final `lib/fadecandy.js` (its `LEDS_PER_STRIP` constant and the
`ledsForDevice`/`ledsForDeviceList` helpers) is not among the staged source
files; the staged variant has `LEDS_PER_DEVICE = 512` with 8 strips per
device, and the superseded capture script uses `MAX_STRIP_LENGTH = 64`,
so each of the 8 strips holds 64 leds. -/
def LEDS_PER_STRIP : Nat := 64

/-- Outcome of the scan loop inside `updateStripLength`:
`unknown` embeds the early `return callback()` when a led inside the scan
range has no measured `peakDiff`; `ended g` embeds `jStrip.length = gap`;
`full` embeds falling off the loop and setting the full strip length. -/
inductive ScanResult where
  | unknown : ScanResult
  | ended : Nat → ScanResult
  | full : ScanResult
deriving Repr, DecidableEq

/-- The `for` loop of `updateStripLength` (lines 422-448), peeled into a
fuel-indexed recursion: `fuel` counts the remaining iterations
(`LEDS_PER_STRIP - i`), `i` is the loop counter and `gap` the current
`gap` variable (`none` embeds `null`).  `peaks i` is
`jDev.leds[i + stripIndex*LEDS_PER_STRIP].peakDiff`, with `none` for a
missing led or a missing measurement. -/
def scanAux (thr : Int) (maxgap : Nat) (peaks : Nat → Option Int) :
    Nat → Nat → Option Nat → ScanResult
  | 0, _, _ => .full
  | fuel + 1, i, gap =>
    match peaks i with
    | none => .unknown
    | some p =>
      if thr ≤ p then
        scanAux thr maxgap peaks fuel (i + 1) none
      else
        let g := gap.getD i
        if maxgap ≤ i - g then .ended g
        else scanAux thr maxgap peaks fuel (i + 1) (some g)

/-- The measured `peakDiff` of the led at in-strip position `i` of strip
`stripIndex`, read from the device's led table. -/
def stripPeaks (jDev : JDev) (stripIndex : Nat) (i : Nat) : Option Int :=
  (alistGet jDev.leds (i + stripIndex * LEDS_PER_STRIP)).bind (·.peakDiff)

/-- The whole scan of `updateStripLength` for one strip. -/
def stripScan (opts : Opts) (jDev : JDev) (stripIndex : Nat) : ScanResult :=
  scanAux opts.noisethreshold opts.maxgap (stripPeaks jDev stripIndex) LEDS_PER_STRIP 0 none

/-- `updateStripLength(stripIndex, jDev, callback)` (lines 408-453): a no-op
when the strip's length is already known or when a led in the scan range
has no measurement; otherwise records the inferred length.  The
`none` branch for a missing strip record is unreachable in the source's
call path (`handleOneLed` creates the strip record before the pipeline
runs). -/
def updateStripLength (opts : Opts) (stripIndex : Nat) (jDev : JDev) : JDev :=
  match alistGet jDev.strips stripIndex with
  | none => jDev
  | some jStrip =>
    if jStrip.length.isSome then jDev
    else
      match stripScan opts jDev stripIndex with
      | .unknown => jDev
      | .ended g => { jDev with strips := alistSet jDev.strips stripIndex { length := some g } }
      | .full => { jDev with strips := alistSet jDev.strips stripIndex { length := some LEDS_PER_STRIP } }

/-- Default option values, as parsed with no flags beyond the data path. -/
def defaultOpts : Opts := {}

/-- The device table of the claim's strip-inference example: emitters of
strip 0 with `peakDiff` sequence `[50, 60, 55, 3, 2, 45]`, no further leds
recorded. -/
def exampleDev : JDev :=
  { strips := [(0, {})],
    leds := [(0, { peakDiff := some 50 }), (1, { peakDiff := some 60 }),
             (2, { peakDiff := some 55 }), (3, { peakDiff := some 3 }),
             (4, { peakDiff := some 2 }), (5, { peakDiff := some 45 })] }

/-- The example extended with a third consecutive below-threshold emitter:
`peakDiff` sequence `[50, 60, 55, 3, 2, 1, 45]`. -/
def exampleDev3 : JDev :=
  { strips := [(0, {})],
    leds := [(0, { peakDiff := some 50 }), (1, { peakDiff := some 60 }),
             (2, { peakDiff := some 55 }), (3, { peakDiff := some 3 }),
             (4, { peakDiff := some 2 }), (5, { peakDiff := some 1 }),
             (6, { peakDiff := some 45 })] }

/-! ### Core photography (src/photographer.js lines 129-170) -/

/-- One observable event of `photographCommon`'s callback protocol, in the
order the source performs them: the `prepFn` call, the
`io.camera.takePicture` call, the two callbacks (with an optional error
string), and the asynchronous raw-file write with its outcome. -/
inductive PEvent where
  | prepCall : PEvent
  | captureCall : PEvent
  | photoCb : Option String → PEvent
  | finalCb : Option String → PEvent
  | writeRaw : String → Bool → PEvent
deriving Repr, DecidableEq

/-- `photographCommon(name, io, jNode, prepFn, photoCallback, finalCallback)`
(lines 129-170).  `disk` is the file-existence predicate
(`fs.existsSync` relative to the data path), `nowMs` the capture-time
timestamp, and `prepRes`/`capRes`/`writeRes` the outcomes of the prep
function, of `takePicture` and of `aWrite.writeFile` (`none` = success).
Returns the node after the run together with the event trace:

* if `jNode.rawFile` is set and the file exists, both callbacks fire at
  once and nothing else happens;
* on a prep or capture error only `photoCallback(err)` fires;
* on a successful capture the node is stamped with the timestamp, its
  `thumbFile` and `lightmap` are deleted, `photoCallback()` fires, and only
  then the raw bytes are written; `rawFile` is set only when the write
  succeeds, else `finalCallback(err)` reports the failure. -/
def photographCommon (disk : String → Bool) (nowMs : Int)
    (prepRes : Option String) (capRes : Option String) (writeRes : Option String)
    (name : String) (jNode : JNode) : JNode × List PEvent :=
  if (jNode.rawFile.map disk).getD false then
    (jNode, [.photoCb none, .finalCb none])
  else
    match prepRes with
    | some e => (jNode, [.prepCall, .photoCb (some e)])
    | none =>
      match capRes with
      | some e => (jNode, [.prepCall, .captureCall, .photoCb (some e)])
      | none =>
        let jNode1 : JNode :=
          { jNode with timestamp := some nowMs, thumbFile := none, lightmap := none }
        let rawFile := "raw-" ++ name ++ ".CR2"
        match writeRes with
        | some e =>
          (jNode1, [.prepCall, .captureCall, .photoCb none,
                    .writeRaw rawFile false, .finalCb (some e)])
        | none =>
          ({ jNode1 with rawFile := some rawFile },
           [.prepCall, .captureCall, .photoCb none,
            .writeRaw rawFile true, .finalCb none])

/-! ### Peak difference (src/photographer.js lines 248-278) -/

/-- A unit of work dispatched to a worker pool or to the lighting/camera
subsystem. -/
inductive Task where
  | thumbnailer : String → String → Task
  | calcPeakDiff : String → String → Task
  | extractDarkPGM : String → String → Task
  | calcLightImage : String → String → String → Task
deriving Repr, DecidableEq

/-- `generatePeakDiff(io, json, jLed, callback)` (lines 248-278), synchronous
part.  If `jLed.peakDiff` is already defined the function returns at once:
no task is dispatched and nothing changes.  Otherwise it regenerates the
dark frame's thumbnail if needed (`generateThumbnail`, lines 104-126) and
dispatches the `calculatePeakDiff` worker; `darkNode` is
`json.darkFrames[jLed.darkFrame]`, `thumbRes`/`diffRes` the worker
outcomes.  Returns the led node, the dark node, the dispatched tasks and
the error reported to the callback, if any. -/
def generatePeakDiff (disk : String → Bool) (thumbRes : Option String)
    (diffRes : Except String Int) (darkName : String) (darkNode : JNode)
    (jLed : JNode) : JNode × JNode × List Task × Option String :=
  if jLed.peakDiff.isSome then
    (jLed, darkNode, [], none)
  else
    let thumbDone :=
      (darkNode.thumbFile.map disk).getD false
    let (darkNode1, thumbTasks, thumbErr) :=
      if thumbDone then (darkNode, ([] : List Task), (none : Option String))
      else
        let thumbFile := "thumb-" ++ darkName ++ ".png"
        match thumbRes with
        | some e => (darkNode, [Task.thumbnailer darkNode.rawFile.get! thumbFile], some e)
        | none => ({ darkNode with thumbFile := some thumbFile },
                   [Task.thumbnailer darkNode.rawFile.get! thumbFile], none)
    match thumbErr with
    | some e => (jLed, darkNode1, thumbTasks, some e)
    | none =>
      match diffRes with
      | .error e =>
        (jLed, darkNode1,
         thumbTasks ++ [Task.calcPeakDiff darkNode1.thumbFile.get! jLed.thumbFile.get!],
         some e)
      | .ok r =>
        ({ jLed with peakDiff := some r }, darkNode1,
         thumbTasks ++ [Task.calcPeakDiff darkNode1.thumbFile.get! jLed.thumbFile.get!],
         none)

/-! ### Task memoization (src/photographer.js lines 281-335) -/

/-- The in-flight task ledger `taskMemo`: a JavaScript object mapping a task
name to the array of waiting callbacks.  Callbacks are identified
abstractly by number. -/
abbrev TaskMemo := List (String × List Nat)

/-- Property read `taskMemo[name]`. -/
def memoLookup (m : TaskMemo) (name : String) : Option (List Nat) :=
  (m.find? (fun p => p.1 == name)).map Prod.snd

/-- Property write `taskMemo[name] = v` (replace in place, else append). -/
def memoSet (m : TaskMemo) (name : String) (v : List Nat) : TaskMemo :=
  match m with
  | [] => [(name, v)]
  | (n, w) :: rest =>
    if n == name then (name, v) :: rest else (n, w) :: memoSet rest name v

/-- `memoizeTask(taskMemo, name, callback)` (lines 281-304): if the task is
already in the memo, push the callback and return `null`; otherwise create
the entry and return a completion function.  The `Bool` records whether a
completion function was returned. -/
def memoizeTask (m : TaskMemo) (name : String) (cb : Nat) : TaskMemo × Bool :=
  match memoLookup m name with
  | some cbs => (memoSet m name (cbs ++ [cb]), false)
  | none => (m ++ [(name, [cb])], true)

/-- The completion closure returned by `memoizeTask` (lines 296-303),
invoked with the values `args`: it reads the queued callback list, deletes
the memo entry (`delete taskMemo[name]`), and invokes each queued callback.
The source's `cb[i].apply(arguments)` passes the `arguments` object as the
`this` value and supplies no argument array, so every callback is invoked
with **no** arguments, whatever `args` holds. -/
def runComplete (m : TaskMemo) (name : String) (args : List String) :
    TaskMemo × List (Nat × List String) :=
  (m.eraseP (fun p => p.1 == name),
   ((memoLookup m name).getD []).map (fun cb => (cb, ([] : List String))))

/-- A sequence of `memoizeTask` calls with one name, threading the memo:
returns the final memo and, in order, whether each call received a
completion function. -/
def memoizeSeq (m : TaskMemo) (name : String) (cbs : List Nat) : TaskMemo × List Bool :=
  match cbs with
  | [] => (m, [])
  | c :: rest =>
    let r1 := memoizeTask m name c
    let r2 := memoizeSeq r1.1 name rest
    (r2.1, r1.2 :: r2.2)

/-- `generateDarkPGM(io, json, taskMemo, index, callback)` (lines 307-335),
synchronous part.  `frame` is `json.darkFrames[index]`.  Returns the memo
after the call, the worker tasks dispatched, and the callback invocations
performed synchronously (from an immediate `complete()` when the PGM file
already exists). -/
def generateDarkPGM (disk : String → Bool) (frame : JNode) (m : TaskMemo)
    (index : Nat) (cb : Nat) : TaskMemo × List Task × List (Nat × List String) :=
  let name := darkFrameName index
  let r := memoizeTask m name cb
  if r.2 = false then
    (r.1, [], [])
  else
    if (frame.pgmFile.map disk).getD false then
      let rc := runComplete r.1 name []
      (rc.1, [], rc.2)
    else
      (r.1, [Task.extractDarkPGM frame.rawFile.get! ("pgm-" ++ name ++ ".pgm")], [])

/-- The latest dark frame exists and is fresh: it has a timestamp strictly
less than `darkinterval` seconds before `nowMs`. -/
def FreshDark (opts : Opts) (nowMs : Int) (darkFrames : List JNode) : Prop :=
  ∃ f, darkFrames.getLast? = some f ∧
    ∃ ts, f.timestamp = some ts ∧ nowMs - ts < (opts.darkinterval : Int) * 1000

/-! ### Per-led handling (src/photographer.js lines 338-376 and 456-488) -/

/-- One candidate light, as produced by `fadecandy.ledsForDevice`
(`led.device`, `led.index`, `led.stripIndex`, `led.stripPosition`,
`led.string`). -/
structure Led where
  device : String
  index : Nat
  stripIndex : Nat
  stripPosition : Nat
  string : String
deriving Repr, DecidableEq

/-- The persistent document `photos.json` as the run holds it in memory:
devices by serial, the dark-frame list, and the persisted pseudorandom
state (lines 588-590, 545-548). -/
structure RunDoc where
  devices : List (String × JDev) := []
  darkFrames : List JNode := []
  random : Option Nat := none
deriving Repr, DecidableEq

/-- What the synchronous head of `handleOneLed` decides: `skipped` embeds
the early return (both callbacks fired, no photography), `proceed` the
fall-through into `photographLed` and the processing waterfall. -/
inductive HandleStep where
  | skipped : HandleStep
  | proceed : HandleStep
deriving Repr, DecidableEq

/-- `handleOneLed(led, io, json, taskMemo, photoCallback, finalCallback)`
(lines 456-488), synchronous head: materialise the device and strip
records (`a = a || default`), then — if the strip's length is known and the
led lies at or beyond it — fire both callbacks and stop; otherwise
materialise the led record and proceed to `photographLed`.  The event list
holds the callbacks fired by the skip branch. -/
def handleOneLed (json : RunDoc) (led : Led) : RunDoc × List PEvent × HandleStep :=
  let jDev := (alistGet json.devices led.device).getD {}
  let jStrip := (alistGet jDev.strips led.stripIndex).getD {}
  let jDev1 := { jDev with strips := alistSet jDev.strips led.stripIndex jStrip }
  let json1 := { json with devices := alistSet json.devices led.device jDev1 }
  match jStrip.length with
  | some len =>
    if led.stripPosition ≥ len then
      (json1, [.photoCb none, .finalCb none], .skipped)
    else
      let jLed := (alistGet jDev1.leds led.index).getD {}
      let jDev2 := { jDev1 with leds := alistSet jDev1.leds led.index jLed }
      ({ json with devices := alistSet json.devices led.device jDev2 }, [], .proceed)
  | none =>
    let jLed := (alistGet jDev1.leds led.index).getD {}
    let jDev2 := { jDev1 with leds := alistSet jDev1.leds led.index jLed }
    ({ json with devices := alistSet json.devices led.device jDev2 }, [], .proceed)

/-- `generateLightmap(name, io, json, jLed, taskMemo, callback)`
(lines 338-376), synchronous part.  `frame` is
`json.darkFrames[jLed.darkFrame]`.  Below the noise threshold the led's
lightmap is deleted and the callback fires (nothing is dispatched); with a
lightmap artifact already on disk nothing happens; otherwise the dark-PGM
derivation is requested through the task ledger (`generateDarkPGM`) — the
`calculateLightImage` dispatch lives in that request's asynchronous
continuation and is not part of the synchronous trace modelled here. -/
def generateLightmapTail (disk : String → Bool) (frame : JNode)
    (jLed : JNode) (m : TaskMemo) (cb : Nat) : JNode × TaskMemo × List Task :=
  if (jLed.lightmap.map (fun lm => disk lm.file)).getD false then
    (jLed, m, [])
  else
    let r := generateDarkPGM disk frame m (jLed.darkFrame.getD 0) cb
    (jLed, r.1, r.2.1)

/-- The threshold check at the head of `generateLightmap`: below the noise
threshold the led's lightmap is deleted and the callback fires with nothing
dispatched; otherwise control falls through to `generateLightmapTail`. -/
def generateLightmap (opts : Opts) (disk : String → Bool) (frame : JNode)
    (jLed : JNode) (m : TaskMemo) (cb : Nat) : JNode × TaskMemo × List Task :=
  match jLed.peakDiff with
  | some p =>
    if p < opts.noisethreshold then
      ({ jLed with lightmap := none }, m, [])
    else
      generateLightmapTail disk frame jLed m cb
  | none => generateLightmapTail disk frame jLed m cb

/-! ### Visiting order (src/photographer.js lines 540-574) -/

/-- Modelled from the spec: `fadecandy.ledsForDevice(serial)` of the final
`lib/fadecandy.js` is not among the staged source files (the staged
variant predates it).  Per the spec's data model, it yields one candidate
record per addressable led of the device — 512 per device, 8 strips of
`LEDS_PER_STRIP = 64` — with the derived `stripIndex` and `stripPosition`
and a printable name. -/
def ledsForDevice (serial : String) : List Led :=
  (List.range (8 * LEDS_PER_STRIP)).map (fun i =>
    { device := serial, index := i, stripIndex := i / LEDS_PER_STRIP,
      stripPosition := i % LEDS_PER_STRIP,
      string := serial ++ "-" ++ toString i })

/-- Modelled from the spec: `fadecandy.ledsForDeviceList` — the candidate
leds of every connected device, in device order. -/
def ledsForDeviceList (serials : List String) : List Led :=
  serials.flatMap ledsForDevice

/-- Modelled from the spec: the external `randy` pseudorandom generator,
whose state the run persists in `json.random`.  A linear congruential
step stands in for the library's generator; the claims depend only on the
generator being a deterministic function of the persisted state. -/
def rngNext (s : Nat) : Nat :=
  (s * 1103515245 + 12345) % 4294967296

/-- Modelled from the spec: the recursive worker of the Fisher-Yates
shuffle. -/
def shuffleGo {α : Type} : Nat → Nat → List α → List α
  | _, 0, l => l
  | s, fuel + 1, l =>
    match l.get? (s % l.length) with
    | none => l
    | some x => x :: shuffleGo (rngNext s) fuel (l.eraseIdx (s % l.length))

/-- Modelled from the spec: `rng.shuffleInplace(leds)` — a Fisher-Yates
shuffle driven by the deterministic generator state. -/
def shuffleInplace {α : Type} (state : Nat) (l : List α) : List α :=
  shuffleGo state l.length l

/-- `orderedInsert` for the comparator
`function (a,b) { return a.stripPosition - b.stripPosition; }`. -/
def orderedInsertPos (x : Led) : List Led → List Led
  | [] => [x]
  | y :: l =>
    if x.stripPosition ≤ y.stripPosition then x :: y :: l
    else y :: orderedInsertPos x l

/-- `leds.sort(function (a,b) { return a.stripPosition - b.stripPosition; })`
(line 567): JavaScript's `Array.prototype.sort` is a stable ascending sort
under this comparator (stability is guaranteed since ES2019), and every
stable sort with the same comparator produces the same list; it is
embedded as a stable insertion sort. -/
def sortByPos : List Led → List Led
  | [] => []
  | x :: l => orderedInsertPos x (sortByPos l)

/-- The candidate list before sorting (lines 550-565): with a live
Fadecandy connection, all leds of the connected devices shuffled with the
persisted-or-fresh generator state; without one, the leds of the devices
already present in the JSON document. -/
def candidateLeds (fcDevices : Option (List String)) (entropy : Nat)
    (json : RunDoc) : List Led :=
  let state := json.random.getD entropy
  match fcDevices with
  | some serials => shuffleInplace state (ledsForDeviceList serials)
  | none => (json.devices.map Prod.fst).flatMap ledsForDevice

/-- `collectLeds(io, json)` (lines 540-574): seed the generator from the
persisted state if one exists (`entropy` stands for the fresh-instance
state used otherwise), persist the state back into `json.random`, build
the candidate list, sort it stably by `stripPosition` ascending, and keep
only leds with `stripIndex < opts.striplimit`. -/
def collectLeds (opts : Opts) (fcDevices : Option (List String)) (entropy : Nat)
    (json : RunDoc) : RunDoc × List Led :=
  let state := json.random.getD entropy
  let json1 := { json with random := some state }
  let leds := candidateLeds fcDevices entropy json
  let ledsSorted := sortByPos leds
  (json1, ledsSorted.filter (fun led => decide (led.stripIndex < opts.striplimit)))

/-! ### The persistent store: `photos.json` serialization
(src/photographer.js lines 577-601)

`jsonSaveFn` compares the serialized document with the last written/loaded
text character for character, so the embedding models the JSON document
level: a `Json` value tree, `JSON.stringify(json, null, '\t')` and
`JSON.parse`.  File contents are lists of characters.  Two points of
JavaScript semantics are modelled explicitly, because the round-trip
behaviour depends on them:

* Property order.  `JSON.stringify` enumerates array-index keys (canonical
  decimal strings below 2^32 - 1 — the led and strip indices of
  `photos.json`) in ascending numeric order first, and the remaining
  string keys in insertion order, regardless of the order `JSON.parse`
  read them in.  The model keeps every object's member list in that
  enumeration order: `JSON.parse` builds objects through `jsObjInsert`,
  which places a new array-index key at its numeric position and appends
  a new string key.

* Numbers.  `JSON.parse` maps a numeric token to the nearest IEEE-754
  double and `JSON.stringify` prints that double's shortest decimal
  representation.  The model stores the token verbatim and restricts the
  well-formed subset to canonical tokens (no leading or trailing zero
  padding, fixed-notation range, at most 15 significant digits): distinct
  decimals of at most 15 significant digits map to distinct doubles, so
  such a token is itself the shortest representation of its double and
  the parse/stringify composition reproduces it character for character.
  This covers the integer timestamps and the non-integer lightmap
  centroid and moment values alike.

Strings are modelled up to the escape-free subset (no quote, backslash or
control characters — filenames, serials and hex digests satisfy
this). -/

/-- A JSON document value.  A number holds its canonical token verbatim;
object member lists are kept in JavaScript property-enumeration order. -/
inductive Json where
  | null : Json
  | bool : Bool → Json
  | num : List Char → Json
  | str : String → Json
  | arr : List Json → Json
  | obj : List (String × Json) → Json

/-- The indentation at nesting depth `d` for the `'\t'` indent argument. -/
def jsonIndent (d : Nat) : List Char := List.replicate d '\t'

mutual
/-- `JSON.stringify(v, null, '\t')` at nesting depth `d`, as a character
list: primitives print inline, non-empty arrays and objects open with a
newline, indent each element one level deeper, and close on their own
indented line; object members print as `"key": value`. -/
def stringifyChars : Nat → Json → List Char
  | _, .null => ['n', 'u', 'l', 'l']
  | _, .bool true => ['t', 'r', 'u', 'e']
  | _, .bool false => ['f', 'a', 'l', 's', 'e']
  | _, .num t => t
  | _, .str s => '"' :: s.data ++ ['"']
  | _, .arr [] => ['[', ']']
  | d, .arr (x :: xs) =>
    '[' :: '\n' :: (jsonIndent (d + 1) ++ stringifyChars (d + 1) x ++
      stringifyItemsRest (d + 1) xs ++ '\n' :: jsonIndent d ++ [']'])
  | _, .obj [] => ['\x7b', '\x7d']
  | d, .obj ((k, v) :: kvs) =>
    '\x7b' :: '\n' :: (jsonIndent (d + 1) ++ ('"' :: k.data ++ ['"', ':', ' ']) ++
      stringifyChars (d + 1) v ++
      stringifyMembersRest (d + 1) kvs ++ '\n' :: jsonIndent d ++ ['\x7d'])

/-- The remaining array items: `,\n<indent><item>` each. -/
def stringifyItemsRest : Nat → List Json → List Char
  | _, [] => []
  | d, x :: xs =>
    ',' :: '\n' :: (jsonIndent d ++ stringifyChars d x) ++ stringifyItemsRest d xs

/-- The remaining object members: `,\n<indent>"key": <value>` each. -/
def stringifyMembersRest : Nat → List (String × Json) → List Char
  | _, [] => []
  | d, (k, v) :: kvs =>
    ',' :: '\n' :: (jsonIndent d ++ ('"' :: k.data ++ ['"', ':', ' ']) ++
      stringifyChars d v) ++ stringifyMembersRest d kvs
end

/-- `JSON.stringify(json, null, '\t')` of a whole document. -/
def stringifyTab (j : Json) : List Char := stringifyChars 0 j

/-- JSON insignificant whitespace. -/
def isWsChar (c : Char) : Bool := c == ' ' || c == '\n' || c == '\t' || c == '\r'

/-- Drop leading insignificant whitespace. -/
def skipWs : List Char → List Char
  | [] => []
  | c :: cs => if isWsChar c then skipWs cs else c :: cs

/-- The body of a string literal after its opening quote, up to the closing
quote (escape sequences are outside the modelled subset). -/
def parseStringRest : List Char → Option (List Char × List Char)
  | [] => none
  | c :: cs =>
    if c == '"' then some ([], cs)
    else if c == '\\' then none
    else (parseStringRest cs).map (fun p => (c :: p.1, p.2))

/-- The numeric value of a digit character. -/
def digitVal (c : Char) : Nat := c.toNat - 48

/-- The longest run of leading digits, and the rest. -/
def parseDigits : List Char → List Char × List Char
  | [] => ([], [])
  | c :: cs =>
    if c.isDigit then
      let p := parseDigits cs
      (c :: p.1, p.2)
    else ([], c :: cs)

/-- The natural number a digit run denotes. -/
def charsToNat (ds : List Char) : Nat :=
  ds.foldl (fun a c => a * 10 + digitVal c) 0

/-- The fraction token of a captured digit run: fail on a bare `.` (as
`JSON.parse` does). -/
def fracFromDigits : List Char × List Char → Option (List Char × List Char)
  | ([], _) => none
  | (d :: ds, rest) => some ('.' :: d :: ds, rest)

/-- The optional fraction part `.digits` of a numeric token, captured
verbatim. -/
def parseFracDigits : List Char → Option (List Char × List Char)
  | [] => some ([], [])
  | c :: cs => if c == '.' then fracFromDigits (parseDigits cs) else some ([], c :: cs)

/-- The exponent token once its marker and sign are consumed: fail on a
bare marker. -/
def expFromDigits (pre : List Char) : List Char × List Char →
    Option (List Char × List Char)
  | ([], _) => none
  | (d :: ds, rest) => some (pre ++ d :: ds, rest)

/-- The exponent digits after the `e`/`E` marker, with an optional sign. -/
def parseExpAfter (e : Char) : List Char → Option (List Char × List Char)
  | [] => none
  | s :: cs =>
    if s == '+' || s == '-' then expFromDigits [e, s] (parseDigits cs)
    else expFromDigits [e] (parseDigits (s :: cs))

/-- The optional exponent part `e[+-]digits` of a numeric token, captured
verbatim. -/
def parseExpDigits : List Char → Option (List Char × List Char)
  | [] => some ([], [])
  | c :: cs =>
    if c == 'e' || c == 'E' then parseExpAfter c cs
    else some ([], c :: cs)

/-- The unsigned numeric token after its integer digits are captured: the
integer part must be non-empty with no leading zero padding (as in the
JSON grammar), followed by the optional fraction and exponent. -/
def numFromDigits : List Char × List Char → Option (List Char × List Char)
  | ([], _) => none
  | (d :: ds, rest) =>
    if d == '0' && !ds.isEmpty then none
    else
      (parseFracDigits rest).bind (fun f =>
        (parseExpDigits f.2).map (fun e => ((d :: ds) ++ (f.1 ++ e.1), e.2)))

/-- An unsigned numeric token, captured verbatim. -/
def parseNumTail (cs : List Char) : Option (List Char × List Char) :=
  numFromDigits (parseDigits cs)

/-- A numeric literal per the JSON grammar — optional minus sign, integer
digits, optional fraction, optional exponent — captured verbatim as the
token `JSON.parse` would convert to a double. -/
def parseNumber (input : List Char) : Option (Json × List Char) :=
  match input with
  | [] => none
  | c :: cs =>
    if c == '-' then (parseNumTail cs).map (fun p => (.num ('-' :: p.1), p.2))
    else (parseNumTail (c :: cs)).map (fun p => (.num p.1, p.2))

/-- The characters of an optional fraction part. -/
def fracChars (fds : List Char) : List Char :=
  if fds.isEmpty then [] else '.' :: fds

/-- A numeric token assembled from a sign, integer digits and fraction
digits. -/
def numTokenParts (neg : Bool) (ip fds : List Char) : List Char :=
  (if neg then ['-'] else []) ++ ip ++ fracChars fds

/-- No leading zero padding: the integer digits start with a nonzero digit
or are the single digit `0`. -/
def leadOk : List Char → Bool
  | [] => false
  | d :: ds => d != '0' || ds.isEmpty

/-- Canonical numeric tokens, on which the verbatim model agrees with
JavaScript: digits only, a non-empty integer part without leading zero
padding, no trailing zero in the fraction, not `-0`, value in the
fixed-notation range (below 10^21, and at least 10^-6 when below one),
and at most 15 significant digits.  `JSON.parse` maps the token to the
nearest double; since decimals of at most 15 significant digits map to
distinct doubles, the token is the shortest decimal rounding to its
double, so `JSON.stringify` — which prints the shortest representation,
in fixed notation over this range — reproduces the token exactly. -/
def canonNumParts (neg : Bool) (ip fds : List Char) : Bool :=
  ip.all (fun c => c.isDigit) &&
  fds.all (fun c => c.isDigit) &&
  !ip.isEmpty &&
  leadOk ip &&
  decide (ip.length ≤ 21) &&
  fds.getLast? != some '0' &&
  !(neg && ip == ['0'] && fds.isEmpty) &&
  (!(ip == ['0']) || fds.isEmpty ||
    decide ((fds.takeWhile (fun c => c == '0')).length ≤ 5)) &&
  decide ((((ip ++ fds).dropWhile (fun c => c == '0')).reverse.dropWhile
    (fun c => c == '0')).length ≤ 15)

/-- JavaScript array-index keys: the canonical decimal string of an
integer below 2^32 - 1 (digits only, no leading zero padding; 2^32 - 2 is
4294967294, a ten-digit number).  Objects enumerate these keys in
ascending numeric order ahead of all other string keys. -/
def isArrayIndexKey (s : String) : Bool :=
  match s.data with
  | [] => false
  | d :: ds =>
    (d :: ds).all (fun c => c.isDigit) && (d != '0' || ds.isEmpty) &&
    (decide ((d :: ds).length < 10) ||
      (decide ((d :: ds).length = 10) && decide (charsToNat (d :: ds) ≤ 4294967294)))

/-- Key `a` is enumerated strictly before key `b`: an array-index key
precedes every string key and numerically greater index keys; distinct
string keys keep their insertion order. -/
def enumKeyLt (a b : String) : Bool :=
  if isArrayIndexKey a then
    !isArrayIndexKey b || decide (charsToNat a.data < charsToNat b.data)
  else !isArrayIndexKey b && a != b

/-- A member list in property-enumeration order with pairwise distinct
keys: every key is enumerated strictly before every later key. -/
def enumOrdered : List (String × Json) → Bool
  | [] => true
  | (k, _) :: rest => rest.all (fun kv => enumKeyLt k kv.1) && enumOrdered rest

/-- Insert a fresh array-index key at its ascending numeric position in
the index prefix of a member list. -/
def jsIdxInsert (k : String) (v : Json) : List (String × Json) → List (String × Json)
  | [] => [(k, v)]
  | (k', v') :: rest =>
    if isArrayIndexKey k' && decide (charsToNat k'.data < charsToNat k.data) then
      (k', v') :: jsIdxInsert k v rest
    else (k, v) :: (k', v') :: rest

/-- JavaScript property creation or update, keeping the member list in
enumeration order: an existing key is updated in place, a fresh
array-index key is inserted at its numeric position, and a fresh string
key is appended. -/
def jsObjInsert (ms : List (String × Json)) (k : String) (v : Json) :
    List (String × Json) :=
  if (alistGet ms k).isSome then alistSet ms k v
  else if isArrayIndexKey k then jsIdxInsert k v ms
  else ms ++ [(k, v)]

/-- The object `JSON.parse` builds from a member list read in textual
order: properties are assigned left to right (a duplicate key overwrites
in place), and the result is enumerated in property order. -/
def jsObjOfMembers (ms : List (String × Json)) : List (String × Json) :=
  ms.foldl (fun acc kv => jsObjInsert acc kv.1 kv.2) []

mutual
/-- `JSON.parse` on the modelled subset: one JSON value and the remaining
input.  The grammar is split into one function per dispatch point, every
function consumes one unit of `fuel` per step, and the recursion is
structural in `fuel`, so concrete parses evaluate by kernel reduction;
`8 * input.length + 9` fuel always suffices.  `parseValue` skips
whitespace and hands the token to `parseToken`, which dispatches on the
first character. -/
def parseValue : Nat → List Char → Option (Json × List Char)
  | 0, _ => none
  | fuel + 1, input => parseToken fuel (skipWs input)

/-- One token: keyword, string, number, array or object. -/
def parseToken : Nat → List Char → Option (Json × List Char)
  | 0, _ => none
  | _ + 1, 'n' :: 'u' :: 'l' :: 'l' :: rest => some (.null, rest)
  | _ + 1, 't' :: 'r' :: 'u' :: 'e' :: rest => some (.bool true, rest)
  | _ + 1, 'f' :: 'a' :: 'l' :: 's' :: 'e' :: rest => some (.bool false, rest)
  | _ + 1, '"' :: rest => (parseStringRest rest).map (fun p => (.str ⟨p.1⟩, p.2))
  | fuel + 1, '[' :: rest => parseArrTail fuel (skipWs rest)
  | fuel + 1, '\x7b' :: rest => parseObjTail fuel (skipWs rest)
  | _ + 1, c :: rest => if c == '-' || c.isDigit then parseNumber (c :: rest) else none
  | _ + 1, [] => none

/-- After `[` (whitespace skipped): the close bracket, or the first item
and the remaining items. -/
def parseArrTail : Nat → List Char → Option (Json × List Char)
  | 0, _ => none
  | _ + 1, ']' :: rest => some (.arr [], rest)
  | fuel + 1, input =>
    (parseValue fuel input).bind (fun p =>
      (parseItemsRest fuel p.2).map (fun q => (.arr (p.1 :: q.1), q.2)))

/-- After `\x7b` (whitespace skipped): the close brace, or the first
member and the remaining members. -/
def parseObjTail : Nat → List Char → Option (Json × List Char)
  | 0, _ => none
  | _ + 1, '\x7d' :: rest => some (.obj [], rest)
  | fuel + 1, '"' :: restk =>
    (parseMemberAfterQuote fuel restk).bind (fun p =>
      (parseMembersRest fuel p.2).map (fun q =>
        (.obj (jsObjOfMembers (p.1 :: q.1)), q.2)))
  | _ + 1, _ => none

/-- A member once its key's opening quote is consumed: the key body, a
colon, and the value. -/
def parseMemberAfterQuote : Nat → List Char → Option ((String × Json) × List Char)
  | 0, _ => none
  | fuel + 1, restk =>
    (parseStringRest restk).bind (fun p =>
      parseMemberColon fuel p.1 (skipWs p.2))

/-- The colon and value of a member. -/
def parseMemberColon : Nat → List Char → List Char → Option ((String × Json) × List Char)
  | 0, _, _ => none
  | fuel + 1, k, ':' :: r2 => (parseValue fuel r2).map (fun p => ((⟨k⟩, p.1), p.2))
  | _ + 1, _, _ => none

/-- After one array item: a comma and a further item, or the close
bracket. -/
def parseItemsRest : Nat → List Char → Option (List Json × List Char)
  | 0, _ => none
  | fuel + 1, input => parseItemsTok fuel (skipWs input)

/-- Dispatch after one array item. -/
def parseItemsTok : Nat → List Char → Option (List Json × List Char)
  | 0, _ => none
  | fuel + 1, ',' :: rest =>
    (parseValue fuel rest).bind (fun p =>
      (parseItemsRest fuel p.2).map (fun q => (p.1 :: q.1, q.2)))
  | _ + 1, ']' :: rest => some ([], rest)
  | _ + 1, _ => none

/-- After one object member: a comma and a further member, or the close
brace. -/
def parseMembersRest : Nat → List Char → Option (List (String × Json) × List Char)
  | 0, _ => none
  | fuel + 1, input => parseMembersTok fuel (skipWs input)

/-- Dispatch after one object member. -/
def parseMembersTok : Nat → List Char → Option (List (String × Json) × List Char)
  | 0, _ => none
  | fuel + 1, ',' :: rest =>
    (parseMemberStart fuel (skipWs rest)).bind (fun p =>
      (parseMembersRest fuel p.2).map (fun q => (p.1 :: q.1, q.2)))
  | _ + 1, '\x7d' :: rest => some ([], rest)
  | _ + 1, _ => none

/-- A further member must open with a quote. -/
def parseMemberStart : Nat → List Char → Option ((String × Json) × List Char)
  | 0, _ => none
  | fuel + 1, '"' :: restk => parseMemberAfterQuote fuel restk
  | _ + 1, _ => none

end

/-- `JSON.parse` of a whole document: one value, nothing but whitespace
after it. -/
def parseJsonChars (input : List Char) : Option Json :=
  match parseValue (8 * input.length + 9) input with
  | some (v, rest) => if (skipWs rest).isEmpty then some v else none
  | none => none

/-- JavaScript truthiness of a JSON value (for `json.devices || {}`); a
numeric token is falsy exactly when its mantissa digits are all zero. -/
def jtruthy : Json → Bool
  | .null => false
  | .bool b => b
  | .num t => !((t.takeWhile (fun c => c != 'e' && c != 'E')).all
      (fun c => c == '0' || c == '-' || c == '.'))
  | .str s => !s.isEmpty
  | .arr _ => true
  | .obj _ => true

/-- `obj.k = obj.k || dflt`: keep a present truthy member, otherwise
assign the default through `jsObjInsert` (replacing a falsy member in
place, or creating the property at its enumeration position). -/
def objSetDefault (kvs : List (String × Json)) (k : String) (dflt : Json) :
    List (String × Json) :=
  match alistGet kvs k with
  | some v => if jtruthy v then kvs else alistSet kvs k dflt
  | none => jsObjInsert kvs k dflt

/-- Lines 589-590: `json.devices = json.devices || {}` and
`json.darkFrames = json.darkFrames || []` (on a non-object document the
assignments have no observable effect). -/
def applyDefaults : Json → Json
  | .obj kvs => .obj (objSetDefault (objSetDefault kvs "devices" (.obj []))
      "darkFrames" (.arr []))
  | other => other

/-- The store's in-memory serialization state: `lastSavedJson` and the live
document (lines 587-588). -/
structure SaveState where
  lastSavedJson : List Char
  json : Json

/-- Lines 586-590: read `photos.json` if it exists (else `'{}'`), parse it,
and default the top-level collections. -/
def loadPhotos (file : Option (List Char)) : Option SaveState :=
  let lastSaved := file.getD ['\x7b', '\x7d']
  (parseJsonChars lastSaved).map
    (fun j => { lastSavedJson := lastSaved, json := applyDefaults j })

/-- `jsonSaveFn` (lines 592-601): serialize the document; if the text equals
the last written/loaded text, do nothing; otherwise remember it and write
it (atomically) to `photos.json`.  The second component is the write
performed, if any. -/
def jsonSaveFn (st : SaveState) : SaveState × Option (List Char) :=
  let savedJson := stringifyTab st.json
  if savedJson == st.lastSavedJson then (st, none)
  else ({ st with lastSavedJson := savedJson }, some savedJson)

/-- The strings the modelled serializer prints verbatim: no quote, no
backslash, no control characters (`JSON.stringify` would escape these). -/
def jsonSafeChar (c : Char) : Bool :=
  c != '"' && c != '\\' && decide (32 ≤ c.toNat)

/-- Documents inside the modelled subset — exactly the documents whose
serialization `JSON.parse` and `JSON.stringify` reproduce: every string
and object key needs no escaping, every numeric token is canonical, and
every member list is in property-enumeration order with distinct keys. -/
inductive WFJson : Json → Prop where
  | null : WFJson .null
  | bool (b : Bool) : WFJson (.bool b)
  | num (neg : Bool) (ip fds : List Char) (h : canonNumParts neg ip fds = true) :
      WFJson (.num (numTokenParts neg ip fds))
  | str (s : String) (h : ∀ c ∈ s.data, jsonSafeChar c = true) : WFJson (.str s)
  | arr (l : List Json) (h : ∀ j ∈ l, WFJson j) : WFJson (.arr l)
  | obj (kvs : List (String × Json))
      (hk : ∀ kv ∈ kvs, ∀ c ∈ (Prod.fst kv).data, jsonSafeChar c = true)
      (hord : enumOrdered kvs = true)
      (hv : ∀ kv ∈ kvs, WFJson kv.2) : WFJson (.obj kvs)

/-- The input does not start with a digit (so a greedy digit run to its
left stops before it). -/
def noDigitHead : List Char → Prop
  | [] => True
  | c :: _ => c.isDigit = false

/-- The input does not continue a numeric token: it starts with no digit,
no decimal point and no exponent marker. -/
def noNumHead : List Char → Prop
  | [] => True
  | c :: _ => c.isDigit = false ∧ c ≠ '.' ∧ c ≠ 'e' ∧ c ≠ 'E'

/-- The document `{"devices": {}, "darkFrames": []}` that a run starting
from an empty store checkpoints first. -/
def emptyRunJson : Json := .obj [("devices", .obj []), ("darkFrames", .arr [])]

/-- A populated store: a device with strip and led tables keyed by
array-index strings, an integer timestamp, a non-integer peak difference
and a persisted random state. -/
def sampleRunJson : Json :=
  .obj [("devices", .obj [("YKMGNRTQ", .obj [
      ("strips", .obj [
        ("0", .obj [("length", .num ['6', '4'])]),
        ("2", .obj [])]),
      ("leds", .obj [
        ("7", .obj [
          ("rawFile", .str "raw-led7.CR2"),
          ("peakDiff", .num ['4', '2', '.', '5'])])])])]),
    ("darkFrames", .arr [.obj [
      ("timestamp", .num ['1', '7', '0', '2', '9', '8', '0', '0', '0', '0', '0', '0', '0'])]]),
    ("random", .num ['9', '0', '0', '7', '1', '9'])]

/-- An existing `photos.json` whose led-index keys appear out of numeric
order: the text `{"1": 1, "0": 0}`. -/
def reorderedRunText : List Char :=
  ['\x7b', '"', '1', '"', ':', ' ', '1', ',', ' ', '"', '0', '"', ':', ' ', '0', '\x7d']

/-! ### Theorems -/

/-- Once the scan is inside a below-threshold run that started at `g` and
every emitter of `g .. g + maxgap` is below the threshold, the loop reports
`ended g` (it triggers at `i = g + maxgap`, where `i - gap` first reaches
`maxgap`). -/
theorem scanAux_run_ended (thr : Int) (maxgap : Nat) (peaks : Nat → Option Int) (g : Nat)
    (hrun : ∀ j, g ≤ j → j ≤ g + maxgap → ∃ p, peaks j = some p ∧ p < thr) :
    ∀ fuel i, g ≤ i → i ≤ g + maxgap → g + maxgap < i + fuel →
      scanAux thr maxgap peaks fuel i (some g) = .ended g := by
  intro fuel
  induction fuel with
  | zero => intro i h1 h2 h3; omega
  | succ fuel ih =>
    intro i h1 h2 h3
    obtain ⟨p, hp, hplt⟩ := hrun i h1 h2
    simp only [scanAux, hp]
    rw [if_neg (not_le.mpr hplt)]
    simp only [Option.getD_some]
    by_cases hm : maxgap ≤ i - g
    · rw [if_pos hm]
    · rw [if_neg hm]
      exact ih (i + 1) (by omega) (by omega) (by omega)

/-- The prefix part of the scan: starting anywhere at or before `g` with a
loop state consistent with the source's `gap` variable, the scan neither
concludes early nor misses the run at `g`, and reports `ended g`.
Hypotheses: every emitter up to `g + maxgap` is measured (`H1`), the
emitters `g .. g + maxgap` are below the threshold (`H2`), no earlier
window of `maxgap + 1` consecutive emitters is entirely below the
threshold (`H3`), and the emitter just before `g`, if any, is visible
(`H4`). -/
theorem scanAux_prefix_ended (thr : Int) (maxgap : Nat) (peaks : Nat → Option Int) (g : Nat)
    (H1 : ∀ j, j ≤ g + maxgap → (peaks j).isSome)
    (H2 : ∀ j, g ≤ j → j ≤ g + maxgap → ∃ p, peaks j = some p ∧ p < thr)
    (H3 : ∀ s, s + maxgap < g → ∃ j, s ≤ j ∧ j ≤ s + maxgap ∧
      ∃ p, peaks j = some p ∧ thr ≤ p)
    (H4 : ∀ j, j + 1 = g → ∃ p, peaks j = some p ∧ thr ≤ p) :
    ∀ fuel i gap, i ≤ g → g + maxgap < i + fuel →
      (∀ s, gap = some s → s < i ∧ ∀ j, s ≤ j → j < i → ∃ p, peaks j = some p ∧ p < thr) →
      scanAux thr maxgap peaks fuel i gap = .ended g := by
  intro fuel
  induction fuel with
  | zero => intro i gap h1 h2 _; omega
  | succ fuel ih =>
    intro i gap h1 h2 hinv
    obtain ⟨p, hp⟩ := Option.isSome_iff_exists.mp (H1 i (by omega))
    simp only [scanAux, hp]
    by_cases hvis : thr ≤ p
    · rw [if_pos hvis]
      have hilt : i < g := by
        rcases Nat.lt_or_ge i g with h | h
        · exact h
        · obtain ⟨p', hp', hplt'⟩ := H2 i (by omega) (by omega)
          rw [hp] at hp'
          cases hp'
          omega
      exact ih (i + 1) none (by omega) (by omega) (by simp)
    · rw [if_neg hvis]
      have hplt : p < thr := lt_of_not_le hvis
      cases gap with
      | none =>
        simp only [Option.getD_none]
        by_cases hm : maxgap ≤ i - i
        · rw [if_pos hm]
          have hmz : maxgap = 0 := by omega
          have hig : i = g := by
            rcases Nat.lt_or_ge i g with h | h
            · obtain ⟨j, hj1, hj2, p', hp', hge'⟩ := H3 i (by omega)
              have : j = i := by omega
              subst this
              rw [hp] at hp'
              cases hp'
              omega
            · omega
          rw [hig]
        · rw [if_neg hm]
          rcases Nat.lt_or_ge i g with hlt | hge
          · refine ih (i + 1) (some i) (by omega) (by omega) ?_
            intro s hs
            cases hs
            refine ⟨by omega, ?_⟩
            intro j hj1 hj2
            have : j = i := by omega
            subst this
            exact ⟨p, hp, hplt⟩
          · have hig : i = g := by omega
            subst hig
            exact scanAux_run_ended thr maxgap peaks i H2 fuel (i + 1)
              (by omega) (by omega) (by omega)
      | some s =>
        obtain ⟨hsi, hrun⟩ := hinv s rfl
        simp only [Option.getD_some]
        have hilt : i < g := by
          rcases Nat.lt_or_ge i g with h | h
          · exact h
          · have hig : i = g := by omega
            obtain ⟨p', hp', hge'⟩ := H4 (g - 1) (by omega)
            obtain ⟨p'', hp'', hlt''⟩ := hrun (g - 1) (by omega) (by omega)
            rw [hp''] at hp'
            cases hp'
            omega
        by_cases hm : maxgap ≤ i - s
        · exfalso
          obtain ⟨j, hj1, hj2, p', hp', hge'⟩ := H3 s (by omega)
          rcases Nat.lt_or_ge j i with hjlt | hjge
          · obtain ⟨p'', hp'', hlt''⟩ := hrun j hj1 hjlt
            rw [hp''] at hp'
            cases hp'
            omega
          · have : j = i := by omega
            subst this
            rw [hp] at hp'
            cases hp'
            omega
        · rw [if_neg hm]
          refine ih (i + 1) (some s) (by omega) (by omega) ?_
          intro s' hs'
          cases hs'
          refine ⟨by omega, ?_⟩
          intro j hj1 hj2
          rcases Nat.lt_or_ge j i with hjlt | hjge
          · exact hrun j hj1 hjlt
          · have : j = i := by omega
            subst this
            exact ⟨p, hp, hplt⟩

/-- C1, counterexample: on the claim's own example — peakDiff sequence
`[50, 60, 55, 3, 2, 45]` with `noisethreshold = 10`, `maxgap = 2` — the
code does **not** infer length 3: the run at indices 3–4 only has length 2,
the trigger `i - gap >= maxgap` needs a run of `maxgap + 1`, so the scan
reaches index 5 (visible), then index 6 (unmeasured) and returns without
setting any length. -/
theorem updateStripLength_example_no_inference :
    updateStripLength defaultOpts 0 exampleDev = exampleDev ∧
    alistGet (updateStripLength defaultOpts 0 exampleDev).strips 0 = some { length := none } ∧
    alistGet (updateStripLength defaultOpts 0 exampleDev).strips 0 ≠ some { length := some 3 } := by
  refine ⟨by decide, by decide, by decide⟩

/-- C1, amended: `updateStripLength` sets the strip's length to `g` when the
scan meets a run of `maxgap + 1` consecutive emitters below `noisethreshold`
starting at `g` (emitters `g .. g + maxgap`), every emitter up to
`g + maxgap` is measured, the emitter before `g` (if any) is visible, no
earlier window of `maxgap + 1` consecutive emitters is entirely below the
threshold, and the run ends within the strip's capacity. -/
theorem updateStripLength_infers_gap_start (opts : Opts) (jDev : JDev) (stripIndex g : Nat)
    (hstrip : alistGet jDev.strips stripIndex = some { length := none })
    (H1 : ∀ j, j ≤ g + opts.maxgap → (stripPeaks jDev stripIndex j).isSome)
    (H2 : ∀ j, g ≤ j → j ≤ g + opts.maxgap →
      ∃ p, stripPeaks jDev stripIndex j = some p ∧ p < opts.noisethreshold)
    (H3 : ∀ s, s + opts.maxgap < g → ∃ j, s ≤ j ∧ j ≤ s + opts.maxgap ∧
      ∃ p, stripPeaks jDev stripIndex j = some p ∧ opts.noisethreshold ≤ p)
    (H4 : ∀ j, j + 1 = g → ∃ p, stripPeaks jDev stripIndex j = some p ∧ opts.noisethreshold ≤ p)
    (H5 : g + opts.maxgap < LEDS_PER_STRIP) :
    updateStripLength opts stripIndex jDev =
      { jDev with strips := alistSet jDev.strips stripIndex { length := some g } } := by
  unfold updateStripLength
  rw [hstrip]
  simp only [Option.isSome_none, Bool.false_eq_true, if_false]
  rw [stripScan, scanAux_prefix_ended opts.noisethreshold opts.maxgap
    (stripPeaks jDev stripIndex) g H1 H2 H3 H4 LEDS_PER_STRIP 0 none
    (by omega) (by omega) (by simp)]

/-- C1, witness: on `[50, 60, 55, 3, 2, 1, 45]` — a run of three
(`maxgap + 1`) consecutive below-threshold emitters starting at index 3 —
the amended theorem applies and the inferred length is 3. -/
theorem updateStripLength_infers_gap_start_witness :
    updateStripLength defaultOpts 0 exampleDev3 =
      { exampleDev3 with strips := alistSet exampleDev3.strips 0 { length := some 3 } } := by
  refine updateStripLength_infers_gap_start defaultOpts exampleDev3 0 3 (by decide)
    ?_ ?_ ?_ ?_ (by decide)
  · intro j hj
    rw [show defaultOpts.maxgap = 2 from rfl] at hj
    interval_cases j <;> decide
  · intro j hj1 hj2
    rw [show defaultOpts.maxgap = 2 from rfl] at hj2
    interval_cases j
    · exact ⟨3, by decide, by decide⟩
    · exact ⟨2, by decide, by decide⟩
    · exact ⟨1, by decide, by decide⟩
  · intro s hs
    rw [show defaultOpts.maxgap = 2 from rfl] at hs
    have : s = 0 := by omega
    subst this
    exact ⟨0, by omega, by omega, 50, by decide, by decide⟩
  · intro j hj
    have : j = 2 := by omega
    subst this
    exact ⟨55, by decide, by decide⟩

/-- C4: when a photo is actually taken (no raw artifact both recorded and
present on disk) and prep and capture succeed, `photographCommon` stamps the
node's timestamp, deletes `thumbFile` and `lightmap`, invokes
`photoCallback()` strictly before the raw write, sets `rawFile` to the new
artifact exactly when the write succeeds, leaves `rawFile` untouched (in
particular unset if it was unset) when the write fails, and reports a write
failure through `finalCallback`. -/
theorem photographCommon_capture_protocol (disk : String → Bool) (nowMs : Int)
    (writeRes : Option String) (name : String) (jNode : JNode)
    (hnoraw : (jNode.rawFile.map disk).getD false = false) :
    ((photographCommon disk nowMs none none writeRes name jNode).1.timestamp = some nowMs ∧
     (photographCommon disk nowMs none none writeRes name jNode).1.thumbFile = none ∧
     (photographCommon disk nowMs none none writeRes name jNode).1.lightmap = none) ∧
    (photographCommon disk nowMs none none writeRes name jNode).2 =
      [.prepCall, .captureCall, .photoCb none,
       .writeRaw ("raw-" ++ name ++ ".CR2") writeRes.isNone, .finalCb writeRes] ∧
    (writeRes = none →
      (photographCommon disk nowMs none none writeRes name jNode).1.rawFile =
        some ("raw-" ++ name ++ ".CR2")) ∧
    (∀ e, writeRes = some e →
      (photographCommon disk nowMs none none writeRes name jNode).1.rawFile =
        jNode.rawFile ∧
      (jNode.rawFile = none →
        (photographCommon disk nowMs none none writeRes name jNode).1.rawFile = none)) := by
  unfold photographCommon
  rw [hnoraw]
  cases writeRes with
  | none => simp
  | some e => simp

/-- C4, witness: a fresh node (no raw artifact) on an empty disk, with a
failing write: the timestamp is stamped, derived fields cleared, the
callback order is as stated, and `rawFile` stays unset. -/
theorem photographCommon_capture_protocol_witness :
    ((photographCommon (fun _ => false) 1700000000000 none none (some "EIO") "led" {}).1.timestamp
        = some 1700000000000 ∧
     (photographCommon (fun _ => false) 1700000000000 none none (some "EIO") "led" {}).1.thumbFile
        = none ∧
     (photographCommon (fun _ => false) 1700000000000 none none (some "EIO") "led" {}).1.lightmap
        = none) ∧
    (photographCommon (fun _ => false) 1700000000000 none none (some "EIO") "led" {}).2 =
      [.prepCall, .captureCall, .photoCb none,
       .writeRaw ("raw-" ++ "led" ++ ".CR2") (some "EIO").isNone, .finalCb (some "EIO")] ∧
    ((some "EIO" : Option String) = none →
      (photographCommon (fun _ => false) 1700000000000 none none (some "EIO") "led" {}).1.rawFile =
        some ("raw-" ++ "led" ++ ".CR2")) ∧
    (∀ e, (some "EIO" : Option String) = some e →
      (photographCommon (fun _ => false) 1700000000000 none none (some "EIO") "led" {}).1.rawFile =
        JNode.rawFile {} ∧
      (JNode.rawFile {} = none →
        (photographCommon (fun _ => false) 1700000000000 none none (some "EIO") "led" {}).1.rawFile
          = none)) :=
  photographCommon_capture_protocol (fun _ => false) 1700000000000 (some "EIO") "led" {} rfl

/-- C5: when the node's `rawFile` is recorded and the file exists on disk,
`photographCommon` fires both callbacks with no error and does nothing
else: the node is returned unchanged in every field and the trace contains
no prep call (so no lighting-subsystem call) and no camera capture. -/
theorem photographCommon_idempotent_skip (disk : String → Bool) (nowMs : Int)
    (prepRes capRes writeRes : Option String) (name : String) (jNode : JNode)
    (f : String) (hraw : jNode.rawFile = some f) (hdisk : disk f = true) :
    photographCommon disk nowMs prepRes capRes writeRes name jNode =
      (jNode, [.photoCb none, .finalCb none]) := by
  unfold photographCommon
  rw [hraw]
  simp [hdisk]

/-- C5, witness: a node whose recorded raw file is present on disk is
returned unchanged with both callbacks fired. -/
theorem photographCommon_idempotent_skip_witness :
    photographCommon (fun s => s == "raw-led0.CR2") 1700000000000 none none none "led0"
        { rawFile := some "raw-led0.CR2", peakDiff := some 42 } =
      ({ rawFile := some "raw-led0.CR2", peakDiff := some 42 },
       [.photoCb none, .finalCb none]) :=
  photographCommon_idempotent_skip (fun s => s == "raw-led0.CR2") 1700000000000
    none none none "led0" { rawFile := some "raw-led0.CR2", peakDiff := some 42 }
    "raw-led0.CR2" rfl (by decide)

/-- C10: retaking a photo does not clear `peakDiff` — `photographCommon`
deletes only `thumbFile` and `lightmap` (`peakDiff` and `darkFrame` pass
through unchanged on every outcome of the write), and `generatePeakDiff`
returns immediately, dispatching no work and changing nothing, whenever
`peakDiff` is already defined. -/
theorem retake_preserves_peakDiff (disk : String → Bool) (nowMs : Int)
    (writeRes : Option String) (name : String) (jNode : JNode)
    (thumbRes : Option String) (diffRes : Except String Int)
    (darkName : String) (darkNode jLed : JNode) (v : Int)
    (hnoraw : (jNode.rawFile.map disk).getD false = false)
    (hpd : jLed.peakDiff = some v) :
    ((photographCommon disk nowMs none none writeRes name jNode).1.peakDiff =
        jNode.peakDiff ∧
     (photographCommon disk nowMs none none writeRes name jNode).1.darkFrame =
        jNode.darkFrame) ∧
    generatePeakDiff disk thumbRes diffRes darkName darkNode jLed =
      (jLed, darkNode, [], none) := by
  constructor
  · unfold photographCommon
    rw [hnoraw]
    cases writeRes with
    | none => simp
    | some e => simp
  · unfold generatePeakDiff
    rw [hpd]
    simp

/-- C10, witness: a node with a measured `peakDiff` of 42 keeps it across a
successful re-capture, and `generatePeakDiff` on it is a no-op. -/
theorem retake_preserves_peakDiff_witness :
    ((photographCommon (fun _ => false) 1700000000000 none none none "led1"
        { peakDiff := some 42, darkFrame := some 0 }).1.peakDiff =
        JNode.peakDiff { peakDiff := some 42, darkFrame := some 0 } ∧
     (photographCommon (fun _ => false) 1700000000000 none none none "led1"
        { peakDiff := some 42, darkFrame := some 0 }).1.darkFrame =
        JNode.darkFrame { peakDiff := some 42, darkFrame := some 0 }) ∧
    generatePeakDiff (fun _ => false) none (.ok 7) "dark-0" {}
        { peakDiff := some 42, darkFrame := some 0 } =
      ({ peakDiff := some 42, darkFrame := some 0 }, {}, [], none) :=
  retake_preserves_peakDiff (fun _ => false) 1700000000000 none "led1"
    { peakDiff := some 42, darkFrame := some 0 } none (.ok 7) "dark-0" {}
    { peakDiff := some 42, darkFrame := some 0 } 42 rfl rfl

/-- Writing a queue under a name and reading it back. -/
theorem memoLookup_memoSet (m : TaskMemo) (name : String) (v : List Nat) :
    memoLookup (memoSet m name v) name = some v := by
  induction m with
  | nil => simp [memoSet, memoLookup]
  | cons hd tl ih =>
    obtain ⟨n, w⟩ := hd
    by_cases h : n == name
    · simp [memoSet, h, memoLookup]
    · simp only [memoSet, h, if_false]
      simpa [memoLookup, List.find?, h] using ih

/-- Appending a fresh entry and reading it back. -/
theorem memoLookup_append_fresh (m : TaskMemo) (name : String) (v : List Nat)
    (hfresh : memoLookup m name = none) :
    memoLookup (m ++ [(name, v)]) name = some v := by
  induction m with
  | nil => simp [memoLookup]
  | cons hd tl ih =>
    obtain ⟨n, w⟩ := hd
    by_cases h : n == name
    · simp [memoLookup, List.find?, h] at hfresh
    · simp only [memoLookup, List.cons_append, List.find?, h] at hfresh ⊢
      exact ih hfresh

/-- A name outside the ledger's keys has no binding. -/
theorem memoLookup_eq_none_of_not_mem (m : TaskMemo) (name : String)
    (h : name ∉ m.map Prod.fst) : memoLookup m name = none := by
  induction m with
  | nil => simp [memoLookup]
  | cons hd tl ih =>
    obtain ⟨n, w⟩ := hd
    simp only [List.map_cons, List.mem_cons, not_or] at h
    have hne : (n == name) = false :=
      beq_eq_false_iff_ne.mpr (fun heq => h.1 heq.symm)
    simp only [memoLookup, List.find?, hne]
    exact ih h.2

/-- Deleting a name removes its binding when the ledger's keys are
distinct. -/
theorem memoLookup_eraseP (m : TaskMemo) (name : String)
    (hnodup : (m.map Prod.fst).Nodup) :
    memoLookup (m.eraseP (fun p => p.1 == name)) name = none := by
  induction m with
  | nil => simp [memoLookup]
  | cons hd tl ih =>
    obtain ⟨n, w⟩ := hd
    simp only [List.map_cons, List.nodup_cons] at hnodup
    by_cases h : n == name
    · have hn : n = name := by simpa using h
      subst hn
      rw [show List.eraseP (fun p => p.1 == n) ((n, w) :: tl) = tl from
        List.eraseP_cons_of_pos h]
      exact memoLookup_eq_none_of_not_mem tl n hnodup.1
    · rw [show List.eraseP (fun p => p.1 == name) ((n, w) :: tl) =
          (n, w) :: List.eraseP (fun p => p.1 == name) tl from
        List.eraseP_cons_of_neg h]
      have hne : (n == name) = false := by simpa using h
      simp only [memoLookup, List.find?, hne] at ih ⊢
      exact ih hnodup.2

/-- Once a name is in flight, a whole sequence of further `memoizeTask`
calls all return `null` and only extend that entry's queue. -/
theorem memoizeSeq_in_flight (name : String) (rest : List Nat) :
    ∀ (m : TaskMemo) (q : List Nat), memoLookup m name = some q →
      (memoizeSeq m name rest).2 = List.replicate rest.length false ∧
      memoLookup (memoizeSeq m name rest).1 name = some (q ++ rest) := by
  induction rest with
  | nil => intro m q h; simpa [memoizeSeq] using h
  | cons c rest ih =>
    intro m q h
    have hstep : memoizeTask m name c = (memoSet m name (q ++ [c]), false) := by
      simp [memoizeTask, h]
    have hlook : memoLookup (memoSet m name (q ++ [c])) name = some (q ++ [c]) :=
      memoLookup_memoSet m name (q ++ [c])
    obtain ⟨h1, h2⟩ := ih (memoSet m name (q ++ [c])) (q ++ [c]) hlook
    constructor
    · simp [memoizeSeq, hstep, h1, List.replicate_succ]
    · simpa [memoizeSeq, hstep, List.append_assoc] using h2

/-- C3, amended: single-flight deduplication.  For a fresh task name the
first `memoizeTask` call returns a completion function and creates the
entry; any sequence of later calls before completion all return `null`
and are queued, in order, on the same entry; `generateDarkPGM` therefore
dispatches no extraction work for a request on a name already in flight.
Invoking the completion function deletes the entry and invokes exactly the
queued callbacks in order — but each callback is invoked with **no**
arguments (`cb[i].apply(arguments)` passes the `arguments` object as the
`this` value), not with the values given to the completion function;
every call site invokes the completion with zero values, so dependents
observe results through the shared document instead. -/
theorem memoizeTask_single_flight (m : TaskMemo) (name : String) (c : Nat)
    (rest : List Nat) (hfresh : memoLookup m name = none) :
    (memoizeTask m name c).2 = true ∧
    memoLookup (memoizeTask m name c).1 name = some [c] ∧
    (memoizeSeq (memoizeTask m name c).1 name rest).2 =
      List.replicate rest.length false ∧
    memoLookup (memoizeSeq (memoizeTask m name c).1 name rest).1 name =
      some (c :: rest) ∧
    (∀ (m' : TaskMemo) (q : List Nat) (args : List String),
      memoLookup m' name = some q →
      (runComplete m' name args).2 = q.map (fun cb => (cb, ([] : List String))) ∧
      ((m'.map Prod.fst).Nodup →
        memoLookup (runComplete m' name args).1 name = none)) ∧
    (∀ (disk : String → Bool) (frame : JNode) (index : Nat) (cb2 : Nat)
      (m'' : TaskMemo), memoLookup m'' (darkFrameName index) ≠ none →
      (generateDarkPGM disk frame m'' index cb2).2.1 = [] ∧
      (generateDarkPGM disk frame m'' index cb2).2.2 = []) := by
  have hstep : memoizeTask m name c = (m ++ [(name, [c])], true) := by
    simp [memoizeTask, hfresh]
  have hlook : memoLookup (m ++ [(name, [c])]) name = some [c] :=
    memoLookup_append_fresh m name [c] hfresh
  obtain ⟨hseq1, hseq2⟩ := memoizeSeq_in_flight name rest (m ++ [(name, [c])]) [c] hlook
  refine ⟨by simp [hstep], by simp [hstep, hlook], by simp [hstep, hseq1],
    by simpa [hstep] using hseq2, ?_, ?_⟩
  · intro m' q args hq
    exact ⟨by simp [runComplete, hq], fun hnodup => memoLookup_eraseP m' name hnodup⟩
  · intro disk frame index cb2 m'' hin
    obtain ⟨q, hq⟩ := Option.ne_none_iff_exists'.mp hin
    have : memoizeTask m'' (darkFrameName index) cb2 =
        (memoSet m'' (darkFrameName index) (q ++ [cb2]), false) := by
      simp [memoizeTask, hq]
    simp [generateDarkPGM, this]

/-- C3, counterexample: the values passed to the completion function are
**not** forwarded to the waiting dependents.  With callback 7 queued under
`dark-0`, invoking the completion with the value `"E"` invokes the
callback with no arguments, not with `"E"`. -/
theorem runComplete_drops_arguments :
    (runComplete [("dark-0", [7])] "dark-0" ["E"]).2 = [(7, [])] ∧
    (runComplete [("dark-0", [7])] "dark-0" ["E"]).2 ≠ [(7, ["E"])] := by
  refine ⟨by decide, by decide⟩

/-- C3, witness: a fresh ledger, first caller 5 and later callers 6 and 7 on
`dark-0`: only the first receives a completion, the queue ends as
`[5, 6, 7]`, completion empties the entry and invokes 5, 6, 7 (each with no
arguments), and a `generateDarkPGM` request on an in-flight name dispatches
nothing. -/
theorem memoizeTask_single_flight_witness :
    (memoizeTask [] "dark-0" 5).2 = true ∧
    memoLookup (memoizeTask [] "dark-0" 5).1 "dark-0" = some [5] ∧
    (memoizeSeq (memoizeTask [] "dark-0" 5).1 "dark-0" [6, 7]).2 =
      List.replicate [6, 7].length false ∧
    memoLookup (memoizeSeq (memoizeTask [] "dark-0" 5).1 "dark-0" [6, 7]).1 "dark-0" =
      some (5 :: [6, 7]) ∧
    (∀ (m' : TaskMemo) (q : List Nat) (args : List String),
      memoLookup m' "dark-0" = some q →
      (runComplete m' "dark-0" args).2 = q.map (fun cb => (cb, ([] : List String))) ∧
      ((m'.map Prod.fst).Nodup →
        memoLookup (runComplete m' "dark-0" args).1 "dark-0" = none)) ∧
    (∀ (disk : String → Bool) (frame : JNode) (index : Nat) (cb2 : Nat)
      (m'' : TaskMemo), memoLookup m'' (darkFrameName index) ≠ none →
      (generateDarkPGM disk frame m'' index cb2).2.1 = [] ∧
      (generateDarkPGM disk frame m'' index cb2).2.2 = []) :=
  memoizeTask_single_flight [] "dark-0" 5 [6, 7] rfl

/-- C6: `currentDarkFrameIndex` returns the index of the most recent dark
frame (`darkFrames.length - 1`) exactly when that frame exists and has a
timestamp strictly less than `darkinterval` seconds before now; otherwise
it returns `darkFrames.length`, which is strictly greater than every
existing dark-frame index. -/
theorem currentDarkFrameIndex_fresh_iff (opts : Opts) (nowMs : Int)
    (darkFrames : List JNode) :
    (FreshDark opts nowMs darkFrames →
      currentDarkFrameIndex opts nowMs darkFrames = darkFrames.length - 1 ∧
      darkFrames ≠ []) ∧
    (¬ FreshDark opts nowMs darkFrames →
      currentDarkFrameIndex opts nowMs darkFrames = darkFrames.length ∧
      ∀ i < darkFrames.length, i < currentDarkFrameIndex opts nowMs darkFrames) ∧
    (darkFrames ≠ [] →
      (currentDarkFrameIndex opts nowMs darkFrames = darkFrames.length - 1 ↔
        FreshDark opts nowMs darkFrames)) := by
  have hlen : ∀ f, darkFrames.getLast? = some f → darkFrames ≠ [] := by
    intro f hf hnil
    rw [hnil] at hf
    simp at hf
  have hstale : ¬ FreshDark opts nowMs darkFrames →
      currentDarkFrameIndex opts nowMs darkFrames = darkFrames.length := by
    intro hnot
    unfold currentDarkFrameIndex
    cases hf : darkFrames.getLast? with
    | none => rfl
    | some f =>
      cases hts : f.timestamp with
      | none => simp only [hts]
      | some ts =>
        simp only [hts]
        rw [if_neg]
        intro hlt
        exact hnot ⟨f, hf, ts, hts, hlt⟩
  have hfresh : FreshDark opts nowMs darkFrames →
      currentDarkFrameIndex opts nowMs darkFrames = darkFrames.length - 1 := by
    rintro ⟨f, hf, ts, hts, hlt⟩
    unfold currentDarkFrameIndex
    rw [hf]
    simp only [hts]
    rw [if_pos hlt]
  constructor
  · intro h
    obtain ⟨f, hf, _⟩ := id h
    exact ⟨hfresh h, hlen f hf⟩
  constructor
  · intro hnot
    exact ⟨hstale hnot, fun i hi => by rw [hstale hnot]; omega⟩
  · intro hne
    constructor
    · intro heq
      by_contra hnot
      rw [hstale hnot] at heq
      have : darkFrames.length ≠ 0 := by
        intro h0
        exact hne (List.length_eq_zero.mp h0)
      omega
    · exact hfresh

/-- C6, witness: a single dark frame stamped 30 s ago is fresh for the
default 60 s interval and is reused; with an empty frame list nothing is
fresh and the next unused index 0 is returned. -/
theorem currentDarkFrameIndex_fresh_iff_witness :
    ((FreshDark defaultOpts 1700000030000 [{ timestamp := some 1700000000000 }] →
      currentDarkFrameIndex defaultOpts 1700000030000 [{ timestamp := some 1700000000000 }] =
        [({ timestamp := some 1700000000000 } : JNode)].length - 1 ∧
      [({ timestamp := some 1700000000000 } : JNode)] ≠ []) ∧
    (¬ FreshDark defaultOpts 1700000030000 [{ timestamp := some 1700000000000 }] →
      currentDarkFrameIndex defaultOpts 1700000030000 [{ timestamp := some 1700000000000 }] =
        [({ timestamp := some 1700000000000 } : JNode)].length ∧
      ∀ i < [({ timestamp := some 1700000000000 } : JNode)].length,
        i < currentDarkFrameIndex defaultOpts 1700000030000 [{ timestamp := some 1700000000000 }]) ∧
    ([({ timestamp := some 1700000000000 } : JNode)] ≠ [] →
      (currentDarkFrameIndex defaultOpts 1700000030000 [{ timestamp := some 1700000000000 }] =
          [({ timestamp := some 1700000000000 } : JNode)].length - 1 ↔
        FreshDark defaultOpts 1700000030000 [{ timestamp := some 1700000000000 }]))) ∧
    currentDarkFrameIndex defaultOpts 1700000030000 [{ timestamp := some 1700000000000 }] = 0 ∧
    currentDarkFrameIndex defaultOpts 1700000030000 [] = 0 :=
  ⟨currentDarkFrameIndex_fresh_iff defaultOpts 1700000030000
      [{ timestamp := some 1700000000000 }],
   by decide, by decide⟩

/-- Re-assigning a key the value it already holds leaves a JavaScript
object unchanged (`a[k] = a[k] || d` with `a[k]` present and truthy). -/
theorem alistSet_get_same {κ α : Type} [BEq κ] [LawfulBEq κ]
    (l : List (κ × α)) (k : κ) (v : α) (h : alistGet l k = some v) :
    alistSet l k v = l := by
  induction l with
  | nil => simp [alistGet] at h
  | cons hd tl ih =>
    obtain ⟨k', v'⟩ := hd
    by_cases hk : k' == k
    · have hkk : k' = k := eq_of_beq hk
      subst hkk
      simp only [alistGet, List.find?, beq_self_eq_true, Option.map_some'] at h
      cases h
      simp [alistSet]
    · have hk' : (k' == k) = false := by simpa using hk
      simp only [alistGet, List.find?, hk'] at h
      simp only [alistSet, hk', Bool.false_eq_true, if_false, List.cons.injEq, true_and]
      exact ih h

/-- C8: a strip with a defined `length` is immutable — `updateStripLength`
returns the device record unchanged — and `handleOneLed`, for a led at or
beyond that length, fires both callbacks with no error, performs no
photography step, and leaves the whole document unchanged (in particular
it creates no record for the led). -/
theorem strip_length_immutable_and_skipping (opts : Opts) (stripIndex : Nat)
    (jDev : JDev) (jStrip : JStrip) (json : RunDoc) (led : Led)
    (dev : JDev) (strip : JStrip) (len : Nat)
    (hs : alistGet jDev.strips stripIndex = some jStrip)
    (hdef : jStrip.length.isSome)
    (hd : alistGet json.devices led.device = some dev)
    (hs2 : alistGet dev.strips led.stripIndex = some strip)
    (hlen : strip.length = some len)
    (hpos : led.stripPosition ≥ len) :
    updateStripLength opts stripIndex jDev = jDev ∧
    handleOneLed json led = (json, [.photoCb none, .finalCb none], .skipped) := by
  constructor
  · unfold updateStripLength
    rw [hs]
    simp only [hdef, if_true]
  · unfold handleOneLed
    rw [hd]
    simp only [Option.getD_some]
    rw [hs2]
    simp only [Option.getD_some]
    rw [alistSet_get_same dev.strips led.stripIndex strip hs2]
    rw [hlen]
    simp only [ge_iff_le, hpos, if_pos]
    rw [show ({ dev with strips := dev.strips } : JDev) = dev from rfl]
    rw [alistSet_get_same json.devices led.device dev hd]

/-- C8, witness: a document whose strip 0 has inferred length 2: the device
record survives `updateStripLength` unchanged, and a led at position 2 of
that strip is skipped with both callbacks fired and the document
untouched. -/
theorem strip_length_immutable_and_skipping_witness :
    updateStripLength defaultOpts 0
      { strips := [(0, { length := some 2 })], leds := [] } =
      { strips := [(0, { length := some 2 })], leds := [] } ∧
    handleOneLed
      { devices := [("fc00", { strips := [(0, { length := some 2 })], leds := [] })] }
      { device := "fc00", index := 2, stripIndex := 0, stripPosition := 2, string := "led2" } =
      ({ devices := [("fc00", { strips := [(0, { length := some 2 })], leds := [] })] },
       [.photoCb none, .finalCb none], .skipped) :=
  strip_length_immutable_and_skipping defaultOpts 0
    { strips := [(0, { length := some 2 })], leds := [] } { length := some 2 }
    { devices := [("fc00", { strips := [(0, { length := some 2 })], leds := [] })] }
    { device := "fc00", index := 2, stripIndex := 0, stripPosition := 2, string := "led2" }
    { strips := [(0, { length := some 2 })], leds := [] } { length := some 2 } 2
    rfl rfl rfl rfl rfl (le_refl 2)

/-- C9: a led whose measured `peakDiff` is below the noise threshold has
its lightmap deleted by `generateLightmap`, which completes at once:
no dark-PGM derivation is requested (the task ledger is untouched) and no
background-subtraction work is dispatched. -/
theorem generateLightmap_below_threshold (opts : Opts) (disk : String → Bool)
    (frame jLed : JNode) (m : TaskMemo) (cb : Nat) (p : Int)
    (hp : jLed.peakDiff = some p) (hlt : p < opts.noisethreshold) :
    generateLightmap opts disk frame jLed m cb =
      ({ jLed with lightmap := none }, m, []) := by
  unfold generateLightmap
  rw [hp]
  simp only [if_pos hlt]

/-- C9, witness: a led with `peakDiff = 3` (below the default threshold 10)
and a stale lightmap: the lightmap is cleared, the ledger stays empty and
no task is dispatched. -/
theorem generateLightmap_below_threshold_witness :
    generateLightmap defaultOpts (fun _ => true) {}
        { peakDiff := some 3, lightmap := some { file := "light-old.png" }, darkFrame := some 0 }
        [] 5 =
      ({ peakDiff := some 3, lightmap := none, darkFrame := some 0 }, [], []) :=
  generateLightmap_below_threshold defaultOpts (fun _ => true) {}
    { peakDiff := some 3, lightmap := some { file := "light-old.png" }, darkFrame := some 0 }
    [] 5 3 rfl (by decide)

/-- Inserting preserves sortedness by `stripPosition`. -/
theorem pairwise_orderedInsertPos (x : Led) (l : List Led)
    (h : List.Pairwise (fun a b => a.stripPosition ≤ b.stripPosition) l) :
    List.Pairwise (fun a b => a.stripPosition ≤ b.stripPosition)
      (orderedInsertPos x l) := by
  induction l with
  | nil => simp [orderedInsertPos]
  | cons y t ih =>
    rw [List.pairwise_cons] at h
    by_cases hxy : x.stripPosition ≤ y.stripPosition
    · rw [orderedInsertPos, if_pos hxy, List.pairwise_cons]
      refine ⟨?_, List.pairwise_cons.mpr h⟩
      intro z hz
      rcases List.mem_cons.mp hz with hz | hz
      · exact hz ▸ hxy
      · exact le_trans hxy (h.1 z hz)
    · rw [orderedInsertPos, if_neg hxy, List.pairwise_cons]
      refine ⟨?_, ih h.2⟩
      intro z hz
      have hmem : ∀ w l', w ∈ orderedInsertPos x l' → w = x ∨ w ∈ l' := by
        intro w l'
        induction l' with
        | nil => simp [orderedInsertPos]
        | cons u t' ih' =>
          by_cases hu : x.stripPosition ≤ u.stripPosition
          · rw [orderedInsertPos, if_pos hu]
            intro hw
            rcases List.mem_cons.mp hw with hw | hw
            · exact Or.inl hw
            · exact Or.inr hw
          · rw [orderedInsertPos, if_neg hu]
            intro hw
            rcases List.mem_cons.mp hw with hw | hw
            · exact Or.inr (hw ▸ List.mem_cons_self u t')
            · rcases ih' hw with hw | hw
              · exact Or.inl hw
              · exact Or.inr (List.mem_cons_of_mem u hw)
      rcases hmem z t hz with hz' | hz'
      · subst hz'
        omega
      · exact h.1 z hz'

/-- The sort of the visiting order is sorted by `stripPosition`. -/
theorem pairwise_sortByPos (l : List Led) :
    List.Pairwise (fun a b => a.stripPosition ≤ b.stripPosition) (sortByPos l) := by
  induction l with
  | nil => simp [sortByPos]
  | cons x t ih => exact pairwise_orderedInsertPos x (sortByPos t) ih

/-- Stability of the insertion step: filtering by any predicate whose
holders are all tied at `x`'s strip position commutes with inserting `x`
(an inserted element passes every tied element already present, and a
dropped element does not disturb the rest). -/
theorem filter_orderedInsertPos (P : Led → Bool) (x : Led) (l : List Led)
    (hP : ∀ b, P b = true → P x = true → b.stripPosition = x.stripPosition) :
    (orderedInsertPos x l).filter P =
      if P x then x :: l.filter P else l.filter P := by
  induction l with
  | nil =>
    rw [orderedInsertPos]
    cases hx : P x <;> simp [List.filter, hx]
  | cons y t ih =>
    by_cases hxy : x.stripPosition ≤ y.stripPosition
    · rw [orderedInsertPos, if_pos hxy]
      cases hx : P x <;> simp [List.filter, hx]
    · rw [orderedInsertPos, if_neg hxy]
      cases hx : P x
      · -- a dropped element does not disturb the rest
        cases hy : P y <;> simp [List.filter, hy, ih, hx]
      · -- x is kept; every tied element is behind the insertion point
        have hy : P y = false := by
          cases hy : P y
          · rfl
          · exact absurd (hP y hy hx) (by omega)
        simp [List.filter, hy, ih, hx]

/-- Stability of the sort: filtering by a position-tied predicate commutes
with sorting, so the pre-sort (shuffle) order is preserved among leds with
equal `stripPosition`. -/
theorem filter_sortByPos (P : Led → Bool)
    (hP : ∀ a b, P a = true → P b = true → a.stripPosition = b.stripPosition) :
    ∀ l : List Led, (sortByPos l).filter P = l.filter P := by
  intro l
  induction l with
  | nil => rfl
  | cons x t ih =>
    rw [sortByPos, filter_orderedInsertPos P x (sortByPos t) (fun b hb hx => hP b x hb hx)]
    cases hx : P x <;> simp [List.filter, hx, ih]

/-- C7: reproducible visiting order.  With an identical persisted generator
state the visiting order of `collectLeds` does not depend on the fresh
entropy (two runs return the same sequence); every returned sequence is
sorted by `stripPosition` ascending; it contains only leds with
`stripIndex < striplimit`; and it is stable: for every position `v`, its
leds at position `v` (within the strip limit) appear exactly in the order
the shuffled candidate list produced them. -/
theorem collectLeds_reproducible_sorted (opts : Opts)
    (fcDevices : Option (List String)) (e1 e2 : Nat) (json : RunDoc) (s : Nat)
    (hrand : json.random = some s) :
    collectLeds opts fcDevices e1 json = collectLeds opts fcDevices e2 json ∧
    List.Pairwise (fun a b => a.stripPosition ≤ b.stripPosition)
      (collectLeds opts fcDevices e1 json).2 ∧
    (∀ led ∈ (collectLeds opts fcDevices e1 json).2,
      led.stripIndex < opts.striplimit) ∧
    (∀ v : Nat,
      (collectLeds opts fcDevices e1 json).2.filter
          (fun z => z.stripPosition == v) =
        (candidateLeds fcDevices e1 json).filter
          (fun z => z.stripPosition == v && decide (z.stripIndex < opts.striplimit))) := by
  refine ⟨?_, ?_, ?_, ?_⟩
  · unfold collectLeds candidateLeds
    rw [hrand]
    rfl
  · exact List.Pairwise.filter _ (pairwise_sortByPos _)
  · intro led hled
    have := List.of_mem_filter hled
    simpa using this
  · intro v
    unfold collectLeds
    simp only
    rw [List.filter_filter]
    exact filter_sortByPos
      (fun z => z.stripPosition == v && decide (z.stripIndex < opts.striplimit))
      (fun a b ha hb => by
        simp only [Bool.and_eq_true, beq_iff_eq, decide_eq_true_eq] at ha hb
        omega)
      (candidateLeds fcDevices e1 json)

/-- C7, witness: a document with persisted generator state 5 and one
connected device: the order is independent of the fresh entropy (7 vs 99),
sorted by `stripPosition`, limited to `stripIndex < 8`, and
position-stable with respect to the shuffled candidates. -/
theorem collectLeds_reproducible_sorted_witness :
    collectLeds defaultOpts (some ["fc00"]) 7 { random := some 5 } =
      collectLeds defaultOpts (some ["fc00"]) 99 { random := some 5 } ∧
    List.Pairwise (fun a b => a.stripPosition ≤ b.stripPosition)
      (collectLeds defaultOpts (some ["fc00"]) 7 { random := some 5 }).2 ∧
    (∀ led ∈ (collectLeds defaultOpts (some ["fc00"]) 7 { random := some 5 }).2,
      led.stripIndex < defaultOpts.striplimit) ∧
    (∀ v : Nat,
      (collectLeds defaultOpts (some ["fc00"]) 7 { random := some 5 }).2.filter
          (fun z => z.stripPosition == v) =
        (candidateLeds (some ["fc00"]) 7 { random := some 5 }).filter
          (fun z => z.stripPosition == v && decide (z.stripIndex < defaultOpts.striplimit))) :=
  collectLeds_reproducible_sorted defaultOpts (some ["fc00"]) 7 99 { random := some 5 } 5 rfl

theorem skipWs_cons_not_ws (c : Char) (cs : List Char) (h : isWsChar c = false) :
    skipWs (c :: cs) = c :: cs := by
  rw [skipWs, h]
  simp

theorem skipWs_ws_append (ws t : List Char) (h : ∀ c ∈ ws, isWsChar c = true) :
    skipWs (ws ++ t) = skipWs t := by
  induction ws with
  | nil => rfl
  | cons c cs ih =>
    rw [List.cons_append, skipWs, h c (List.mem_cons_self c cs)]
    simp only [if_true]
    exact ih (fun c' hc' => h c' (List.mem_cons_of_mem c hc'))

theorem jsonIndent_ws (d : Nat) : ∀ c ∈ jsonIndent d, isWsChar c = true := by
  intro c hc
  rw [jsonIndent] at hc
  rw [List.eq_of_mem_replicate hc]
  rfl

theorem parseStringRest_closes (s rest : List Char)
    (h : ∀ c ∈ s, jsonSafeChar c = true) :
    parseStringRest (s ++ '"' :: rest) = some (s, rest) := by
  induction s with
  | nil => rw [List.nil_append, parseStringRest]; simp
  | cons c cs ih =>
    have hc := h c (List.mem_cons_self c cs)
    rw [jsonSafeChar, Bool.and_eq_true, Bool.and_eq_true] at hc
    obtain ⟨⟨hq1, hq2⟩, _⟩ := hc
    have h1 : (c == '"') = false := beq_eq_false_iff_ne.mpr (by simpa using hq1)
    have h2 : (c == '\\') = false := beq_eq_false_iff_ne.mpr (by simpa using hq2)
    rw [List.cons_append, parseStringRest, h1, h2]
    simp only [Bool.false_eq_true, if_false]
    rw [ih (fun c' hc' => h c' (List.mem_cons_of_mem c hc'))]
    rfl

theorem isDigit_beq_false (c c0 : Char) (h : c.isDigit = true)
    (h0 : c0.isDigit = false) : (c == c0) = false := by
  cases hq : c == c0
  · rfl
  · exfalso
    rw [eq_of_beq hq, h0] at h
    exact Bool.false_ne_true h

theorem isDigit_ne (c c0 : Char) (h : c.isDigit = true)
    (h0 : c0.isDigit = false) : c ≠ c0 := by
  intro he
  rw [he, h0] at h
  exact Bool.false_ne_true h

theorem isDigit_not_ws (c : Char) (h : c.isDigit = true) : isWsChar c = false := by
  rw [isWsChar, isDigit_beq_false c ' ' h (by decide),
    isDigit_beq_false c '\n' h (by decide), isDigit_beq_false c '\t' h (by decide),
    isDigit_beq_false c '\r' h (by decide)]
  rfl

theorem noNumHead_noDigit (l : List Char) (h : noNumHead l) : noDigitHead l := by
  cases l with
  | nil => trivial
  | cons c cs => exact h.1

theorem parseDigits_all (ds rest : List Char)
    (hds : ∀ c ∈ ds, c.isDigit = true) (hrest : noDigitHead rest) :
    parseDigits (ds ++ rest) = (ds, rest) := by
  induction ds with
  | nil =>
    rw [List.nil_append]
    cases rest with
    | nil => rfl
    | cons c cs =>
      rw [noDigitHead] at hrest
      simp [parseDigits, hrest]
  | cons c cs ih =>
    rw [List.cons_append, parseDigits, hds c (List.mem_cons_self c cs)]
    simp only [if_true]
    rw [ih (fun c' hc' => hds c' (List.mem_cons_of_mem c hc'))]

theorem canonNumParts_parts (neg : Bool) (ip fds : List Char)
    (h : canonNumParts neg ip fds = true) :
    (∀ c ∈ ip, c.isDigit = true) ∧ (∀ c ∈ fds, c.isDigit = true) ∧
      ip ≠ [] ∧ leadOk ip = true := by
  rw [canonNumParts] at h
  simp only [Bool.and_eq_true] at h
  have hA := h.1.1.1.1.1.1.1.1
  have hB := h.1.1.1.1.1.1.1.2
  have hC := h.1.1.1.1.1.1.2
  have hD := h.1.1.1.1.1.2
  simp only [List.all_eq_true] at hA hB
  refine ⟨fun c hc => hA c hc, fun c hc => hB c hc, ?_, hD⟩
  intro he
  rw [he] at hC
  exact absurd hC (by decide)

/-- A canonical numeric token starts with a minus sign or a digit — never
with whitespace nor a closing bracket or brace. -/
theorem numTokenParts_head (neg : Bool) (ip fds : List Char)
    (hip : ∀ c ∈ ip, c.isDigit = true) (hne : ip ≠ []) :
    ∃ c t, numTokenParts neg ip fds = c :: t ∧ isWsChar c = false ∧
      (c == '-' || c.isDigit) = true ∧ c ≠ ']' ∧ c ≠ '\x7d' := by
  cases neg with
  | true =>
    refine ⟨'-', ip ++ fracChars fds, ?_, by decide, by decide, by decide, by decide⟩
    rw [numTokenParts]
    rfl
  | false =>
    cases ip with
    | nil => exact absurd rfl hne
    | cons d ds =>
      have hd := hip d (List.mem_cons_self d ds)
      refine ⟨d, ds ++ fracChars fds, ?_, isDigit_not_ws d hd, ?_,
        isDigit_ne d ']' hd (by decide), isDigit_ne d '\x7d' hd (by decide)⟩
      · rw [numTokenParts]
        rfl
      · rw [hd]
        simp

theorem fracChars_noDigitHead (fds rest : List Char) (hrest : noNumHead rest) :
    noDigitHead (fracChars fds ++ rest) := by
  cases fds with
  | nil =>
    show noDigitHead rest
    exact noNumHead_noDigit rest hrest
  | cons fd fds' =>
    show ('.'.isDigit = false)
    decide

theorem parseFracDigits_none (rest : List Char) (hrest : noNumHead rest) :
    parseFracDigits rest = some ([], rest) := by
  cases rest with
  | nil => rfl
  | cons c cs =>
    rw [parseFracDigits, show (c == '.') = false from beq_eq_false_iff_ne.mpr hrest.2.1]
    rfl

theorem parseExpDigits_none (rest : List Char) (hrest : noNumHead rest) :
    parseExpDigits rest = some ([], rest) := by
  cases rest with
  | nil => rfl
  | cons c cs =>
    rw [parseExpDigits,
      show (c == 'e') = false from beq_eq_false_iff_ne.mpr hrest.2.2.1,
      show (c == 'E') = false from beq_eq_false_iff_ne.mpr hrest.2.2.2]
    rfl

theorem parseNumTail_token (ip fds rest : List Char)
    (hip : ∀ c ∈ ip, c.isDigit = true) (hfds : ∀ c ∈ fds, c.isDigit = true)
    (hne : ip ≠ []) (hlz : leadOk ip = true) (hrest : noNumHead rest) :
    parseNumTail (ip ++ (fracChars fds ++ rest)) =
      some (ip ++ fracChars fds, rest) := by
  cases ip with
  | nil => exact absurd rfl hne
  | cons d ds =>
    rw [parseNumTail]
    rw [parseDigits_all (d :: ds) (fracChars fds ++ rest) hip
      (fracChars_noDigitHead fds rest hrest)]
    rw [numFromDigits]
    have hchk : (d == '0' && !ds.isEmpty) = false := by
      cases hq : d == '0' with
      | false => rfl
      | true =>
        have hds : ds.isEmpty = true := by
          rw [leadOk] at hlz
          cases hds : ds.isEmpty with
          | true => rfl
          | false =>
            rw [hds] at hlz
            rw [show (d != '0') = false from by rw [bne, hq]; rfl] at hlz
            exact absurd hlz (by decide)
        rw [hds]
        rfl
    rw [hchk]
    simp only [Bool.false_eq_true, if_false]
    cases fds with
    | nil =>
      rw [show fracChars [] ++ rest = rest from rfl, parseFracDigits_none rest hrest]
      simp only [Option.bind_eq_bind, Option.some_bind]
      rw [parseExpDigits_none rest hrest]
      simp only [Option.map_some']
      rfl
    | cons fd fds' =>
      have hfrac : parseFracDigits (fracChars (fd :: fds') ++ rest) =
          some ('.' :: fd :: fds', rest) := by
        show parseFracDigits ('.' :: ((fd :: fds') ++ rest)) = _
        rw [parseFracDigits, show ('.' == '.') = true from rfl]
        simp only [if_true]
        rw [parseDigits_all (fd :: fds') rest hfds (noNumHead_noDigit rest hrest)]
        rfl
      rw [hfrac]
      simp only [Option.bind_eq_bind, Option.some_bind]
      rw [parseExpDigits_none rest hrest]
      simp only [Option.map_some', List.append_nil]
      rfl

/-- A canonical numeric token followed by anything that does not continue
it parses back to exactly the token. -/
theorem parseNumber_token (neg : Bool) (ip fds rest : List Char)
    (hip : ∀ c ∈ ip, c.isDigit = true) (hfds : ∀ c ∈ fds, c.isDigit = true)
    (hne : ip ≠ []) (hlz : leadOk ip = true) (hrest : noNumHead rest) :
    parseNumber (numTokenParts neg ip fds ++ rest) =
      some (.num (numTokenParts neg ip fds), rest) := by
  have htail := parseNumTail_token ip fds rest hip hfds hne hlz hrest
  cases neg with
  | true =>
    rw [show numTokenParts true ip fds ++ rest =
      '-' :: (ip ++ (fracChars fds ++ rest)) from by rw [numTokenParts]; simp]
    rw [parseNumber, show ('-' == '-') = true from rfl]
    simp only [if_true]
    rw [htail]
    simp only [Option.map_some']
    rw [show numTokenParts true ip fds = '-' :: (ip ++ fracChars fds) from by
      rw [numTokenParts]; simp]
  | false =>
    cases ip with
    | nil => exact absurd rfl hne
    | cons d ds =>
      have hd := hip d (List.mem_cons_self d ds)
      rw [show numTokenParts false (d :: ds) fds ++ rest =
        d :: (ds ++ (fracChars fds ++ rest)) from by rw [numTokenParts]; simp]
      rw [parseNumber, isDigit_beq_false d '-' hd (by decide)]
      simp only [Bool.false_eq_true, if_false]
      have htail2 : parseNumTail (d :: (ds ++ (fracChars fds ++ rest))) =
          some ((d :: ds) ++ fracChars fds, rest) := by
        simp only [List.cons_append, List.append_assoc] at htail ⊢
        exact htail
      rw [htail2]
      simp only [Option.map_some']
      rw [show numTokenParts false (d :: ds) fds = (d :: ds) ++ fracChars fds from by
        rw [numTokenParts]; simp]

theorem alistGet_eq_none {κ α : Type} [BEq κ] (l : List (κ × α)) (k : κ)
    (h : ∀ kv ∈ l, (kv.1 == k) = false) : alistGet l k = none := by
  rw [alistGet]
  have hfind : l.find? (fun p => p.1 == k) = none :=
    List.find?_eq_none.mpr (fun p hp hpk => by
      rw [h p hp] at hpk
      exact Bool.false_ne_true hpk)
  rw [hfind]
  rfl

theorem enumKeyLt_irrefl (a : String) : enumKeyLt a a = false := by
  rw [enumKeyLt]
  by_cases h : isArrayIndexKey a = true
  · rw [if_pos h, h]
    simp [Nat.lt_irrefl]
  · rw [if_neg h]
    simp

theorem enumKeyLt_ne (a b : String) (h : enumKeyLt a b = true) : (a == b) = false := by
  cases hq : a == b
  · rfl
  · exfalso
    rw [eq_of_beq hq, enumKeyLt_irrefl b] at h
    exact Bool.false_ne_true h

theorem enumOrdered_pairs (xs ys : List (String × Json))
    (h : enumOrdered (xs ++ ys) = true) :
    ∀ x ∈ xs, ∀ y ∈ ys, enumKeyLt x.1 y.1 = true := by
  induction xs with
  | nil =>
    intro x hx
    exact absurd hx (List.not_mem_nil x)
  | cons a xs ih =>
    obtain ⟨ak, av⟩ := a
    intro x hx y hy
    rw [List.cons_append, enumOrdered, Bool.and_eq_true] at h
    rcases List.mem_cons.mp hx with hxa | hxs
    · rw [hxa]
      have hall := h.1
      simp only [List.all_eq_true] at hall
      exact hall y (List.mem_append_right xs hy)
    · exact ih h.2 x hxs y hy

theorem jsIdxInsert_append (k : String) (v : Json) (acc : List (String × Json))
    (hk : isArrayIndexKey k = true)
    (hall : ∀ kv ∈ acc, enumKeyLt kv.1 k = true) :
    jsIdxInsert k v acc = acc ++ [(k, v)] := by
  induction acc with
  | nil => rfl
  | cons kv rest ih =>
    obtain ⟨k', v'⟩ := kv
    have h1 := hall (k', v') (List.mem_cons_self (k', v') rest)
    rw [jsIdxInsert]
    cases h2 : isArrayIndexKey k' with
    | false =>
      exfalso
      have hne2 : ¬ (isArrayIndexKey k' = true) := by
        rw [h2]
        exact Bool.false_ne_true
      rw [enumKeyLt, if_neg hne2, hk] at h1
      simp at h1
    | true =>
      rw [enumKeyLt, if_pos h2, hk] at h1
      simp only [Bool.not_true, Bool.false_or] at h1
      rw [h1]
      simp only [Bool.and_self, if_true]
      rw [List.cons_append, ih (fun kv' h' => hall kv' (List.mem_cons_of_mem _ h'))]

theorem jsObjInsert_fresh (acc : List (String × Json)) (k : String) (v : Json)
    (hall : ∀ kv ∈ acc, enumKeyLt kv.1 k = true) :
    jsObjInsert acc k v = acc ++ [(k, v)] := by
  rw [jsObjInsert]
  rw [alistGet_eq_none acc k (fun kv hkv => enumKeyLt_ne kv.1 k (hall kv hkv))]
  simp only [Option.isSome_none, Bool.false_eq_true, if_false]
  by_cases hk : isArrayIndexKey k = true
  · rw [if_pos hk]
    exact jsIdxInsert_append k v acc hk hall
  · rw [if_neg hk]

theorem jsObjOfMembersAux (kvs : List (String × Json)) :
    ∀ acc, enumOrdered (acc ++ kvs) = true →
      kvs.foldl (fun a kv => jsObjInsert a kv.1 kv.2) acc = acc ++ kvs := by
  induction kvs with
  | nil =>
    intro acc h
    rw [List.foldl_nil, List.append_nil]
  | cons kv rest ih =>
    obtain ⟨k, v⟩ := kv
    intro acc h
    simp only [List.foldl_cons]
    have hall : ∀ kv' ∈ acc, enumKeyLt kv'.1 k = true := by
      intro kv' hkv'
      exact enumOrdered_pairs acc ((k, v) :: rest) h kv' hkv' (k, v)
        (List.mem_cons_self (k, v) rest)
    rw [jsObjInsert_fresh acc k v hall]
    rw [ih (acc ++ [(k, v)]) (by rw [List.append_assoc]; exact h)]
    rw [List.append_assoc, List.singleton_append]

/-- Re-assigning the members of an enumeration-ordered object in list
order reproduces the object: parsing the members a checkpoint printed
gives back the same member list. -/
theorem jsObjOfMembers_ordered (kvs : List (String × Json))
    (h : enumOrdered kvs = true) : jsObjOfMembers kvs = kvs := by
  rw [jsObjOfMembers]
  have haux := jsObjOfMembersAux kvs [] (by rw [List.nil_append]; exact h)
  rw [List.nil_append] at haux
  exact haux

/-- Every serialized well-formed value starts with a non-whitespace
character that is neither a closing bracket nor a closing brace. -/
theorem stringifyChars_head (d : Nat) (v : Json) (hv : WFJson v) :
    ∃ c t, stringifyChars d v = c :: t ∧ isWsChar c = false ∧
      c ≠ ']' ∧ c ≠ '\x7d' := by
  cases hv with
  | null => exact ⟨'n', _, rfl, by decide, by decide, by decide⟩
  | bool b =>
    cases b
    · exact ⟨'f', _, rfl, by decide, by decide, by decide⟩
    · exact ⟨'t', _, rfl, by decide, by decide, by decide⟩
  | num neg ip fds h =>
    obtain ⟨hip, hfds, hne, hlz⟩ := canonNumParts_parts neg ip fds h
    obtain ⟨c, t, htok, hws, hnum, hbr, hbc⟩ := numTokenParts_head neg ip fds hip hne
    exact ⟨c, t, by rw [stringifyChars, htok], hws, hbr, hbc⟩
  | str s h => exact ⟨'"', _, rfl, by decide, by decide, by decide⟩
  | arr l h =>
    cases l
    · exact ⟨'[', _, rfl, by decide, by decide, by decide⟩
    · exact ⟨'[', _, rfl, by decide, by decide, by decide⟩
  | obj l hk hord hv2 =>
    cases l with
    | nil => exact ⟨'\x7b', _, rfl, by decide, by decide, by decide⟩
    | cons kv kvs =>
      obtain ⟨k, v⟩ := kv
      exact ⟨'\x7b', _, rfl, by decide, by decide, by decide⟩

/-- What follows one serialized array item never continues a numeric
token. -/
theorem noNumHead_itemsRest (d : Nat) (xs : List Json) (l : List Char) :
    noNumHead (stringifyItemsRest d xs ++ '\n' :: l) := by
  cases xs with
  | nil =>
    rw [stringifyItemsRest, List.nil_append]
    show '\n'.isDigit = false ∧ '\n' ≠ '.' ∧ '\n' ≠ 'e' ∧ '\n' ≠ 'E'
    decide
  | cons x xs =>
    rw [stringifyItemsRest, List.cons_append]
    show ','.isDigit = false ∧ ',' ≠ '.' ∧ ',' ≠ 'e' ∧ ',' ≠ 'E'
    decide

/-- What follows one serialized object member never continues a numeric
token. -/
theorem noNumHead_membersRest (d : Nat) (kvs : List (String × Json)) (l : List Char) :
    noNumHead (stringifyMembersRest d kvs ++ '\n' :: l) := by
  cases kvs with
  | nil =>
    rw [stringifyMembersRest, List.nil_append]
    show '\n'.isDigit = false ∧ '\n' ≠ '.' ∧ '\n' ≠ 'e' ∧ '\n' ≠ 'E'
    decide
  | cons kv kvs =>
    obtain ⟨k, v⟩ := kv
    rw [stringifyMembersRest, List.cons_append]
    show ','.isDigit = false ∧ ',' ≠ '.' ∧ ',' ≠ 'e' ∧ ',' ≠ 'E'
    decide

/-- A token whose first character is a minus sign or a digit is a
number. -/
theorem parseToken_num_head (fuel : Nat) (c : Char) (rest : List Char)
    (hc : (c == '-' || c.isDigit) = true) :
    parseToken (fuel + 1) (c :: rest) = parseNumber (c :: rest) := by
  have hd : ∀ c0 : Char, c = c0 → (c0 == '-' || c0.isDigit) = false → False := by
    intro c0 hcc h0
    rw [hcc, h0] at hc
    exact Bool.false_ne_true hc
  rw [parseToken.eq_8 fuel c rest
    (fun r h1 h2 => hd 'n' h1 (by decide))
    (fun r h1 h2 => hd 't' h1 (by decide))
    (fun r h1 h2 => hd 'f' h1 (by decide))
    (fun h1 => hd '"' h1 (by decide))
    (fun h1 => hd '[' h1 (by decide))
    (fun h1 => hd '\x7b' h1 (by decide))]
  rw [if_pos hc]

/-- A non-empty array's tail begins with its first item, not `]`. -/
theorem parseArrTail_cons (fuel : Nat) (c : Char) (r : List Char) (hc : c ≠ ']') :
    parseArrTail (fuel + 1) (c :: r) =
      (parseValue fuel (c :: r)).bind (fun p =>
        (parseItemsRest fuel p.2).map (fun q => (.arr (p.1 :: q.1), q.2))) :=
  parseArrTail.eq_3 (c :: r) fuel
    (by
      intro rest heq
      rw [List.cons.injEq] at heq
      exact hc heq.1)

/-- Round trip for the items after a non-empty array's first element,
given the round trip for each item.  The fuel bound `8 * length + 8 < fuel`
leaves room for the eight fueled dispatch steps per consumed character. -/
theorem parseItemsRest_stringify (xs : List Json)
    (ihx : ∀ j ∈ xs, ∀ d ws rest fuel, (∀ c ∈ ws, isWsChar c = true) →
      noNumHead rest → 8 * (ws ++ stringifyChars d j ++ rest).length + 8 < fuel →
      parseValue fuel (ws ++ stringifyChars d j ++ rest) = some (j, rest)) :
    ∀ d rest fuel,
      8 * (stringifyItemsRest (d + 1) xs ++ '\n' :: (jsonIndent d ++ ']' :: rest)).length + 8
        < fuel →
      parseItemsRest fuel
        (stringifyItemsRest (d + 1) xs ++ '\n' :: (jsonIndent d ++ ']' :: rest)) =
        some (xs, rest) := by
  induction xs with
  | nil =>
    intro d rest fuel hb
    rw [stringifyItemsRest, List.nil_append] at hb ⊢
    match fuel, hb with
    | fuel + 2, hb =>
    rw [parseItemsRest]
    rw [show ('\n' :: (jsonIndent d ++ ']' :: rest)) =
      ('\n' :: jsonIndent d) ++ (']' :: rest) from by simp]
    rw [skipWs_ws_append ('\n' :: jsonIndent d) (']' :: rest) ?hws]
    case hws =>
      intro c hc
      rcases List.mem_cons.mp hc with h | h
      · rw [h]; rfl
      · exact jsonIndent_ws d c h
    rw [skipWs_cons_not_ws ']' rest (by decide)]
    rw [parseItemsTok]
  | cons x xs ih =>
    intro d rest fuel hb
    rw [stringifyItemsRest] at hb ⊢
    simp only [List.cons_append, List.append_assoc] at hb ⊢
    match fuel, hb with
    | fuel + 2, hb =>
    rw [parseItemsRest]
    rw [skipWs_cons_not_ws ',' _ (by decide)]
    rw [parseItemsTok]
    have hx := ihx x (List.mem_cons_self x xs) (d + 1) ('\n' :: jsonIndent (d + 1))
      (stringifyItemsRest (d + 1) xs ++ '\n' :: (jsonIndent d ++ ']' :: rest)) fuel
      (by
        intro c hc
        rcases List.mem_cons.mp hc with h | h
        · rw [h]; rfl
        · exact jsonIndent_ws (d + 1) c h)
      (noNumHead_itemsRest (d + 1) xs _)
      (by
        simp only [List.length_cons, List.length_append, List.length_nil] at hb ⊢
        omega)
    simp only [List.cons_append, List.append_assoc] at hx
    rw [hx]
    simp only [Option.bind_eq_bind, Option.some_bind]
    rw [ih (fun j hj => ihx j (List.mem_cons_of_mem x hj)) d rest fuel
      (by
        simp only [List.length_cons, List.length_append, List.length_nil] at hb ⊢
        omega)]
    rfl

/-- Round trip for the members after a non-empty object's first member,
given the round trip for each member's value and escape-free keys. -/
theorem parseMembersRest_stringify (kvs : List (String × Json))
    (hk : ∀ kv ∈ kvs, ∀ c ∈ (Prod.fst kv).data, jsonSafeChar c = true)
    (ihx : ∀ kv ∈ kvs, ∀ d ws rest fuel, (∀ c ∈ ws, isWsChar c = true) →
      noNumHead rest →
      8 * (ws ++ stringifyChars d (Prod.snd kv) ++ rest).length + 8 < fuel →
      parseValue fuel (ws ++ stringifyChars d (Prod.snd kv) ++ rest) =
        some (Prod.snd kv, rest)) :
    ∀ d rest fuel,
      8 * (stringifyMembersRest (d + 1) kvs ++
        '\n' :: (jsonIndent d ++ '\x7d' :: rest)).length + 8 < fuel →
      parseMembersRest fuel
        (stringifyMembersRest (d + 1) kvs ++ '\n' :: (jsonIndent d ++ '\x7d' :: rest)) =
        some (kvs, rest) := by
  induction kvs with
  | nil =>
    intro d rest fuel hb
    rw [stringifyMembersRest, List.nil_append] at hb ⊢
    match fuel, hb with
    | fuel + 2, hb =>
    rw [parseMembersRest]
    rw [show ('\n' :: (jsonIndent d ++ '\x7d' :: rest)) =
      ('\n' :: jsonIndent d) ++ ('\x7d' :: rest) from by simp]
    rw [skipWs_ws_append ('\n' :: jsonIndent d) ('\x7d' :: rest) ?hws]
    case hws =>
      intro c hc
      rcases List.mem_cons.mp hc with h | h
      · rw [h]; rfl
      · exact jsonIndent_ws d c h
    rw [skipWs_cons_not_ws '\x7d' rest (by decide)]
    rw [parseMembersTok]
  | cons kv kvs ih =>
    obtain ⟨k, v⟩ := kv
    intro d rest fuel hb
    rw [stringifyMembersRest] at hb ⊢
    simp only [List.cons_append, List.append_assoc, List.nil_append] at hb ⊢
    match fuel, hb with
    | fuel + 5, hb =>
    rw [parseMembersRest]
    rw [skipWs_cons_not_ws ',' _ (by decide)]
    rw [parseMembersTok]
    rw [show ('\n' :: (jsonIndent (d + 1) ++
        '"' :: (k.data ++ '"' :: ':' :: ' ' :: (stringifyChars (d + 1) v ++
          (stringifyMembersRest (d + 1) kvs ++
            '\n' :: (jsonIndent d ++ '\x7d' :: rest)))))) =
      ('\n' :: jsonIndent (d + 1)) ++
        ('"' :: (k.data ++ '"' :: ':' :: ' ' :: (stringifyChars (d + 1) v ++
          (stringifyMembersRest (d + 1) kvs ++
            '\n' :: (jsonIndent d ++ '\x7d' :: rest))))) from by simp]
    rw [skipWs_ws_append ('\n' :: jsonIndent (d + 1)) _ ?hws]
    case hws =>
      intro c hc
      rcases List.mem_cons.mp hc with h | h
      · rw [h]; rfl
      · exact jsonIndent_ws (d + 1) c h
    rw [skipWs_cons_not_ws '"' _ (by decide)]
    rw [parseMemberStart]
    rw [parseMemberAfterQuote]
    rw [show (k.data ++ '"' :: ':' :: ' ' :: (stringifyChars (d + 1) v ++
        (stringifyMembersRest (d + 1) kvs ++
          '\n' :: (jsonIndent d ++ '\x7d' :: rest)))) =
      (k.data ++ '"' :: (':' :: ' ' :: (stringifyChars (d + 1) v ++
        (stringifyMembersRest (d + 1) kvs ++
          '\n' :: (jsonIndent d ++ '\x7d' :: rest))))) from by simp]
    rw [parseStringRest_closes k.data _
      (hk (k, v) (List.mem_cons_self (k, v) kvs))]
    simp only [Option.bind_eq_bind, Option.some_bind]
    rw [skipWs_cons_not_ws ':' _ (by decide)]
    rw [parseMemberColon]
    have hv := ihx (k, v) (List.mem_cons_self (k, v) kvs) (d + 1) [' ']
      (stringifyMembersRest (d + 1) kvs ++ '\n' :: (jsonIndent d ++ '\x7d' :: rest))
      fuel
      (by
        intro c hc
        rcases List.mem_cons.mp hc with h | h
        · rw [h]; rfl
        · simp at h)
      (noNumHead_membersRest (d + 1) kvs _)
      (by
        simp only [List.length_cons, List.length_append, List.length_nil] at hb ⊢
        omega)
    simp only [List.cons_append, List.append_assoc, List.nil_append] at hv
    rw [hv]
    simp only [Option.map_some', Option.some_bind]
    rw [ih (fun kv' h' => hk kv' (List.mem_cons_of_mem (k, v) h'))
      (fun kv' h' => ihx kv' (List.mem_cons_of_mem (k, v) h')) d rest (fuel + 3)
      (by
        simp only [List.length_cons, List.length_append, List.length_nil] at hb ⊢
        omega)]
    rfl

/-- Printer/parser round trip: parsing the tab-indented serialization of a
well-formed document yields the document back, from any starting depth,
after any leading whitespace and before any non-digit-led remainder. -/
theorem parseValue_stringify (v : Json) (hv : WFJson v) :
    ∀ d ws rest fuel, (∀ c ∈ ws, isWsChar c = true) → noNumHead rest →
      8 * (ws ++ stringifyChars d v ++ rest).length + 8 < fuel →
      parseValue fuel (ws ++ stringifyChars d v ++ rest) = some (v, rest) := by
  induction hv with
  | null =>
    intro d ws rest fuel hws hrest hb
    match fuel, hb with
    | fuel + 2, hb =>
    rw [stringifyChars] at hb ⊢
    simp only [List.cons_append, List.nil_append, List.append_assoc] at hb ⊢
    rw [parseValue, skipWs_ws_append ws _ hws, skipWs_cons_not_ws 'n' _ (by decide)]
    rw [parseToken]
  | bool b =>
    intro d ws rest fuel hws hrest hb
    match fuel, hb with
    | fuel + 2, hb =>
    cases b
    · rw [stringifyChars] at hb ⊢
      simp only [List.cons_append, List.nil_append, List.append_assoc] at hb ⊢
      rw [parseValue, skipWs_ws_append ws _ hws, skipWs_cons_not_ws 'f' _ (by decide)]
      rw [parseToken]
    · rw [stringifyChars] at hb ⊢
      simp only [List.cons_append, List.nil_append, List.append_assoc] at hb ⊢
      rw [parseValue, skipWs_ws_append ws _ hws, skipWs_cons_not_ws 't' _ (by decide)]
      rw [parseToken]
  | num neg ip fds h =>
    intro d ws rest fuel hws hrest hb
    match fuel, hb with
    | fuel + 2, hb =>
    rw [stringifyChars, List.append_assoc]
    rw [parseValue, skipWs_ws_append ws _ hws]
    obtain ⟨hip, hfds, hne, hlz⟩ := canonNumParts_parts neg ip fds h
    obtain ⟨c, t, htok, hcws, hcnum, _, _⟩ := numTokenParts_head neg ip fds hip hne
    rw [htok, List.cons_append, skipWs_cons_not_ws c _ hcws]
    rw [parseToken_num_head fuel c _ hcnum]
    rw [← List.cons_append, ← htok]
    exact parseNumber_token neg ip fds rest hip hfds hne hlz hrest
  | str s h =>
    intro d ws rest fuel hws hrest hb
    match fuel, hb with
    | fuel + 2, hb =>
    rw [stringifyChars]
    simp only [List.cons_append, List.nil_append, List.append_assoc]
    rw [parseValue, skipWs_ws_append ws _ hws, skipWs_cons_not_ws '"' _ (by decide)]
    rw [parseToken]
    rw [parseStringRest_closes s.data rest h]
    rfl
  | arr l h ih =>
    intro d ws rest fuel hws hrest hb
    match fuel, hb with
    | fuel + 3, hb =>
    cases l with
    | nil =>
      rw [stringifyChars] at hb ⊢
      simp only [List.cons_append, List.nil_append, List.append_assoc] at hb ⊢
      rw [parseValue, skipWs_ws_append ws _ hws, skipWs_cons_not_ws '[' _ (by decide)]
      rw [parseToken]
      rw [skipWs_cons_not_ws ']' _ (by decide)]
      rw [parseArrTail]
    | cons x xs =>
      rw [stringifyChars] at hb ⊢
      simp only [List.cons_append, List.nil_append, List.append_assoc] at hb ⊢
      rw [parseValue, skipWs_ws_append ws _ hws, skipWs_cons_not_ws '[' _ (by decide)]
      rw [parseToken]
      rw [show ('\n' :: (jsonIndent (d + 1) ++ (stringifyChars (d + 1) x ++
          (stringifyItemsRest (d + 1) xs ++ '\n' :: (jsonIndent d ++ ']' :: rest))))) =
        ('\n' :: jsonIndent (d + 1)) ++ (stringifyChars (d + 1) x ++
          (stringifyItemsRest (d + 1) xs ++ '\n' :: (jsonIndent d ++ ']' :: rest)))
        from by simp]
      rw [skipWs_ws_append ('\n' :: jsonIndent (d + 1)) _ ?hws2]
      case hws2 =>
        intro c hc
        rcases List.mem_cons.mp hc with hcc | hcc
        · rw [hcc]; rfl
        · exact jsonIndent_ws (d + 1) c hcc
      obtain ⟨c, t, hS, hcws, hcbr, _⟩ :=
        stringifyChars_head (d + 1) x (h x (List.mem_cons_self x xs))
      rw [hS, List.cons_append, skipWs_cons_not_ws c _ hcws]
      rw [parseArrTail_cons fuel c _ hcbr]
      rw [← List.cons_append, ← hS]
      have hx := ih x (List.mem_cons_self x xs) (d + 1) []
        (stringifyItemsRest (d + 1) xs ++ '\n' :: (jsonIndent d ++ ']' :: rest)) fuel
        (by intro c' hc'; simp at hc')
        (noNumHead_itemsRest (d + 1) xs _)
        (by
          simp only [List.length_cons, List.length_append, List.length_nil] at hb ⊢
          omega)
      simp only [List.cons_append, List.append_assoc, List.nil_append] at hx
      rw [hx]
      simp only [Option.bind_eq_bind, Option.some_bind]
      rw [parseItemsRest_stringify xs (fun j hj => ih j (List.mem_cons_of_mem x hj))
        d rest fuel
        (by
          simp only [List.length_cons, List.length_append, List.length_nil] at hb ⊢
          omega)]
      rfl
  | obj kvs hk hord hv ih =>
    intro d ws rest fuel hws hrest hb
    match fuel, hb with
    | fuel + 5, hb =>
    cases kvs with
    | nil =>
      rw [stringifyChars] at hb ⊢
      simp only [List.cons_append, List.nil_append, List.append_assoc] at hb ⊢
      rw [parseValue, skipWs_ws_append ws _ hws, skipWs_cons_not_ws '\x7b' _ (by decide)]
      rw [parseToken]
      rw [skipWs_cons_not_ws '\x7d' _ (by decide)]
      rw [parseObjTail]
    | cons kv kvs' =>
      obtain ⟨k, v⟩ := kv
      rw [stringifyChars] at hb ⊢
      simp only [List.cons_append, List.nil_append, List.append_assoc] at hb ⊢
      rw [parseValue, skipWs_ws_append ws _ hws, skipWs_cons_not_ws '\x7b' _ (by decide)]
      rw [parseToken]
      rw [show ('\n' :: (jsonIndent (d + 1) ++
          '"' :: (k.data ++ '"' :: ':' :: ' ' :: (stringifyChars (d + 1) v ++
            (stringifyMembersRest (d + 1) kvs' ++
              '\n' :: (jsonIndent d ++ '\x7d' :: rest)))))) =
        ('\n' :: jsonIndent (d + 1)) ++
          ('"' :: (k.data ++ '"' :: ':' :: ' ' :: (stringifyChars (d + 1) v ++
            (stringifyMembersRest (d + 1) kvs' ++
              '\n' :: (jsonIndent d ++ '\x7d' :: rest)))))
        from by simp]
      rw [skipWs_ws_append ('\n' :: jsonIndent (d + 1)) _ ?hws3]
      case hws3 =>
        intro c hc
        rcases List.mem_cons.mp hc with hcc | hcc
        · rw [hcc]; rfl
        · exact jsonIndent_ws (d + 1) c hcc
      rw [skipWs_cons_not_ws '"' _ (by decide)]
      rw [parseObjTail]
      rw [parseMemberAfterQuote]
      rw [show (k.data ++ '"' :: ':' :: ' ' :: (stringifyChars (d + 1) v ++
          (stringifyMembersRest (d + 1) kvs' ++
            '\n' :: (jsonIndent d ++ '\x7d' :: rest)))) =
        (k.data ++ '"' :: (':' :: ' ' :: (stringifyChars (d + 1) v ++
          (stringifyMembersRest (d + 1) kvs' ++
            '\n' :: (jsonIndent d ++ '\x7d' :: rest))))) from by simp]
      rw [parseStringRest_closes k.data _
        (hk (k, v) (List.mem_cons_self (k, v) kvs'))]
      simp only [Option.bind_eq_bind, Option.some_bind]
      rw [skipWs_cons_not_ws ':' _ (by decide)]
      rw [parseMemberColon]
      have hx := ih (k, v) (List.mem_cons_self (k, v) kvs') (d + 1) [' ']
        (stringifyMembersRest (d + 1) kvs' ++ '\n' :: (jsonIndent d ++ '\x7d' :: rest))
        fuel
        (by
          intro c hc
          rcases List.mem_cons.mp hc with hcc | hcc
          · rw [hcc]; rfl
          · simp at hcc)
        (noNumHead_membersRest (d + 1) kvs' _)
        (by
          simp only [List.length_cons, List.length_append, List.length_nil] at hb ⊢
          omega)
      simp only [List.cons_append, List.append_assoc, List.nil_append] at hx
      rw [hx]
      simp only [Option.map_some', Option.some_bind]
      rw [parseMembersRest_stringify kvs'
        (fun kv' h' => hk kv' (List.mem_cons_of_mem (k, v) h'))
        (fun kv' h' => ih kv' (List.mem_cons_of_mem (k, v) h'))
        d rest (fuel + 2)
        (by
          simp only [List.length_cons, List.length_append, List.length_nil] at hb ⊢
          omega)]
      simp only [Option.map_some']
      rw [jsObjOfMembers_ordered ((k, v) :: kvs') hord]

/-- Document-level round trip: `JSON.parse` of the tab-indented
serialization of a well-formed document returns the document. -/
theorem parseJsonChars_stringifyTab (v : Json) (hv : WFJson v) :
    parseJsonChars (stringifyTab v) = some v := by
  rw [parseJsonChars]
  have h := parseValue_stringify v hv 0 [] [] (8 * (stringifyTab v).length + 9)
    (by intro c hc; simp at hc) trivial
    (by
      rw [stringifyTab]
      simp only [List.nil_append, List.append_nil]
      omega)
  simp only [List.nil_append, List.append_nil] at h
  rw [stringifyTab] at h
  rw [stringifyTab, h]
  rfl

/-- `emptyRunJson` lies in the modelled well-formed subset. -/
theorem emptyRunJson_wf : WFJson emptyRunJson := by
  refine WFJson.obj _ (by decide) (by decide) ?_
  intro kv hkv
  rcases List.mem_cons.mp hkv with h | h
  · rw [h]
    exact WFJson.obj [] (by simp) (by decide) (by simp)
  · rcases List.mem_cons.mp h with h2 | h2
    · rw [h2]
      exact WFJson.arr [] (by simp)
    · simp at h2

/-- `sampleRunJson` lies in the modelled well-formed subset: its strip and
led tables are in ascending index order and its numeric tokens — the strip
length, the fractional peak difference, the timestamp and the random
state — are canonical. -/
theorem sampleRunJson_wf : WFJson sampleRunJson := by
  have hlen : WFJson (.num ['6', '4']) :=
    WFJson.num false ['6', '4'] [] (by decide)
  have hpk : WFJson (.num ['4', '2', '.', '5']) :=
    WFJson.num false ['4', '2'] ['5'] (by decide)
  have hts : WFJson (.num ['1', '7', '0', '2', '9', '8', '0', '0', '0', '0', '0', '0', '0']) :=
    WFJson.num false ['1', '7', '0', '2', '9', '8', '0', '0', '0', '0', '0', '0', '0'] []
      (by decide)
  have hrand : WFJson (.num ['9', '0', '0', '7', '1', '9']) :=
    WFJson.num false ['9', '0', '0', '7', '1', '9'] [] (by decide)
  have hraw : WFJson (.str "raw-led7.CR2") := WFJson.str _ (by decide)
  have hstrip0 : WFJson (.obj [("length", .num ['6', '4'])]) := by
    refine WFJson.obj _ (by decide) (by decide) ?_
    intro kv hkv
    rw [List.mem_singleton.mp hkv]
    exact hlen
  have hstrip2 : WFJson (.obj []) := WFJson.obj [] (by simp) (by decide) (by simp)
  have hstrips : WFJson (.obj [("0", .obj [("length", .num ['6', '4'])]), ("2", .obj [])]) := by
    refine WFJson.obj _ (by decide) (by decide) ?_
    intro kv hkv
    rcases List.mem_cons.mp hkv with h | h
    · rw [h]
      exact hstrip0
    · rw [List.mem_singleton.mp h]
      exact hstrip2
  have hled7 : WFJson (.obj [("rawFile", .str "raw-led7.CR2"),
      ("peakDiff", .num ['4', '2', '.', '5'])]) := by
    refine WFJson.obj _ (by decide) (by decide) ?_
    intro kv hkv
    rcases List.mem_cons.mp hkv with h | h
    · rw [h]
      exact hraw
    · rw [List.mem_singleton.mp h]
      exact hpk
  have hleds : WFJson (.obj [("7", .obj [("rawFile", .str "raw-led7.CR2"),
      ("peakDiff", .num ['4', '2', '.', '5'])])]) := by
    refine WFJson.obj _ (by decide) (by decide) ?_
    intro kv hkv
    rw [List.mem_singleton.mp hkv]
    exact hled7
  have hdev : WFJson (.obj [
      ("strips", .obj [("0", .obj [("length", .num ['6', '4'])]), ("2", .obj [])]),
      ("leds", .obj [("7", .obj [("rawFile", .str "raw-led7.CR2"),
        ("peakDiff", .num ['4', '2', '.', '5'])])])]) := by
    refine WFJson.obj _ (by decide) (by decide) ?_
    intro kv hkv
    rcases List.mem_cons.mp hkv with h | h
    · rw [h]
      exact hstrips
    · rw [List.mem_singleton.mp h]
      exact hleds
  have hdevs : WFJson (.obj [("YKMGNRTQ", .obj [
      ("strips", .obj [("0", .obj [("length", .num ['6', '4'])]), ("2", .obj [])]),
      ("leds", .obj [("7", .obj [("rawFile", .str "raw-led7.CR2"),
        ("peakDiff", .num ['4', '2', '.', '5'])])])])]) := by
    refine WFJson.obj _ (by decide) (by decide) ?_
    intro kv hkv
    rw [List.mem_singleton.mp hkv]
    exact hdev
  have hframe : WFJson (.obj [("timestamp",
      .num ['1', '7', '0', '2', '9', '8', '0', '0', '0', '0', '0', '0', '0'])]) := by
    refine WFJson.obj _ (by decide) (by decide) ?_
    intro kv hkv
    rw [List.mem_singleton.mp hkv]
    exact hts
  have hframes : WFJson (.arr [.obj [("timestamp",
      .num ['1', '7', '0', '2', '9', '8', '0', '0', '0', '0', '0', '0', '0'])]]) := by
    refine WFJson.arr _ ?_
    intro j hj
    rw [List.mem_singleton.mp hj]
    exact hframe
  refine WFJson.obj _ (by decide) (by decide) ?_
  intro kv hkv
  rcases List.mem_cons.mp hkv with h | h
  · rw [h]
    exact hdevs
  · rcases List.mem_cons.mp h with h2 | h2
    · rw [h2]
      exact hframes
    · rw [List.mem_singleton.mp h2]
      exact hrand

/-- C2, counterexample: loading an existing `photos.json` and immediately
checkpointing, with no other modification, is **not** always a no-op.
First, for the file `\x7b\x7d` the load defaults the top-level collections
and the re-serialization differs from the input text, so the file is
rewritten.  Second, for the file `\x7b"1": 1, "0": 0\x7d` — whose
array-index keys appear out of numeric order — `JSON.parse` enumerates the
keys in ascending numeric order, so the loaded document holds `"0"` before
`"1"` and the checkpoint rewrites the file in the reordered form. -/
theorem checkpoint_rewrites_noncanonical_file :
    ((loadPhotos (some ['\x7b', '\x7d'])).isSome = true ∧
      (loadPhotos (some ['\x7b', '\x7d'])).map (fun st => (jsonSaveFn st).2) ≠ some none ∧
      (loadPhotos (some ['\x7b', '\x7d'])).map (fun st => (jsonSaveFn st).2) ≠
        some (some ['\x7b', '\x7d'])) ∧
    ((loadPhotos (some reorderedRunText)).map SaveState.json =
        some (.obj [("0", .num ['0']), ("1", .num ['1']),
          ("devices", .obj []), ("darkFrames", .arr [])]) ∧
      (loadPhotos (some reorderedRunText)).map (fun st => (jsonSaveFn st).2) ≠
        some none) := by
  refine ⟨⟨by decide, by decide, by decide⟩, ?_, by decide⟩
  rfl

/-- C2, amended: `jsonSaveFn` writes exactly when the serialized document
differs from the last written/loaded text; and the load → checkpoint round
trip holds exactly for canonical files — for every well-formed document
(member lists in property-enumeration order, canonical numeric tokens of
at most 15 significant digits, escape-free strings) whose top-level
collections are already present, loading its serialization and immediately
checkpointing performs no write, leaving the file byte-for-byte
identical. -/
theorem jsonSaveFn_writes_iff_changed (st : SaveState) (doc : Json)
    (hwf : WFJson doc) (hdef : applyDefaults doc = doc) :
    ((jsonSaveFn st).2 = none ↔ stringifyTab st.json = st.lastSavedJson) ∧
    loadPhotos (some (stringifyTab doc)) =
      some { lastSavedJson := stringifyTab doc, json := doc } ∧
    jsonSaveFn { lastSavedJson := stringifyTab doc, json := doc } =
      ({ lastSavedJson := stringifyTab doc, json := doc }, none) := by
  refine ⟨?_, ?_, ?_⟩
  · rw [jsonSaveFn]
    by_cases h : stringifyTab st.json = st.lastSavedJson
    · simp [h]
    · have hbeq : (stringifyTab st.json == st.lastSavedJson) = false :=
        beq_eq_false_iff_ne.mpr h
      simp [hbeq, h]
  · rw [loadPhotos]
    simp only [Option.getD_some]
    rw [parseJsonChars_stringifyTab doc hwf]
    simp only [Option.map_some']
    rw [hdef]
  · rw [jsonSaveFn]
    simp

/-- C2, witness: on the populated canonical document `sampleRunJson` —
ascending index-keyed strip and led tables, an integer timestamp and a
fractional peak difference — load then checkpoint is a no-op: the store is
returned unchanged and no write is performed. -/
theorem jsonSaveFn_writes_iff_changed_witness :
    ((jsonSaveFn ⟨['x'], .null⟩).2 = none ↔
      stringifyTab (SaveState.json ⟨['x'], .null⟩) =
        SaveState.lastSavedJson ⟨['x'], .null⟩) ∧
    loadPhotos (some (stringifyTab sampleRunJson)) =
      some { lastSavedJson := stringifyTab sampleRunJson, json := sampleRunJson } ∧
    jsonSaveFn { lastSavedJson := stringifyTab sampleRunJson, json := sampleRunJson } =
      ({ lastSavedJson := stringifyTab sampleRunJson, json := sampleRunJson }, none) :=
  jsonSaveFn_writes_iff_changed ⟨['x'], .null⟩ sampleRunJson sampleRunJson_wf rfl

end LedCarto
